import Mathlib

/-!
# SafeTransfer: framed transfer of a fixed-size payload over a two-wire bus

A shallow embedding of `src/SafeTransfer.hpp` (`template <typename T> class SafeTransfer`).

* A byte is a `Fin 256`; the payload type `T` is represented by `N = sizeof(T)` and a value
  of `T` by the list of its `N` object bytes.
* Memory reached through a pointer is a function from offsets to bytes (`Mem`).  A buffer
  obtained from `new uint8_t[packetSize]` is such a memory whose first `packetSize` offsets
  are the allocation; its initial contents are indeterminate and therefore a parameter
  (`fresh`) of every operation that allocates.  Offsets past the allocation are ordinary cells
  of the same flat memory.
* The 16-bit members `dataSize` and `packetSize` are taken modulo `2 ^ 16`, the 8-bit local
  `bufferIndex` modulo `2 ^ 8`.
* `TwoWire` instances are identified by a number; the global object `Wire` is number `0`.
  What a callback does is outside the class, so an invocation is recorded in a log, and so
  is every operation performed on a bus and every line printed on `Serial`.
* `FastCRC16::xmodem` belongs to an external library; it is modelled as the bitwise
  CRC-16/XMODEM (polynomial `0x1021`, initial value `0`).
* Results about frames assume `sizeof(T) + 3 < 2 ^ 16`, the payload sizes for which the 16-bit
  members hold the true sizes.
-/

set_option maxRecDepth 100000

namespace SafeTransfer

/-! ## Data model -/

/-- One `uint8_t`. -/
abbrev Byte := Fin 256

/-- Memory seen from a base pointer: offset to byte. -/
abbrev Mem := Nat → Byte

/-- The macro `CRC_SIZE` (`#define CRC_SIZE 2`). -/
def CRC_SIZE : Nat := 2

/-- The macro `TYPE_SIZE` (`#define TYPE_SIZE 1`). -/
def TYPE_SIZE : Nat := 1

/-- The enumeration `PacketType`. -/
inductive PacketType where
  | DATA
  | ACK
  | ERROR
  | RETRY
  deriving DecidableEq, Repr

/-- Numeric value of an enumerator, as produced by the cast `(uint8_t) type`. -/
def PacketType.toByte : PacketType → Byte
  | .DATA => 0
  | .ACK => 1
  | .ERROR => 2
  | .RETRY => 3

/-- The member `const uint16_t dataSize = sizeof(T)`. -/
def dataSize (N : Nat) : Nat := N % 2 ^ 16

/-- The member `const uint16_t packetSize = TYPE_SIZE + dataSize + CRC_SIZE`. -/
def packetSize (N : Nat) : Nat := (TYPE_SIZE + dataSize N + CRC_SIZE) % 2 ^ 16

/-- Byte order of the target, which decides what `memcpy` of a `uint16_t` or of an integer
payload moves. -/
inductive Endian where
  | little
  | big
  deriving DecidableEq, Repr

/-! ## Memory primitives -/

/-- The call `memcpy(dst + dOff, src + sOff, n)`: the resulting contents of the destination
memory. -/
def memcpy (dst : Mem) (dOff : Nat) (src : Mem) (sOff n : Nat) : Mem :=
  fun i => if dOff ≤ i ∧ i < dOff + n then src (sOff + (i - dOff)) else dst i

/-- The `n` bytes found at offsets `off, off + 1, ..., off + n - 1`. -/
def readBytes (m : Mem) (off n : Nat) : List Byte :=
  (List.range n).map (fun i => m (off + i))

/-- The memory at the address of an object with object bytes `v`: the bytes of the object
followed by whatever lies behind it (`behind`). -/
def objectMem (v : List Byte) (behind : Mem) : Mem :=
  fun i => if h : i < v.length then v.get ⟨i, h⟩ else behind (i - v.length)

/-- A memory holding zero everywhere. -/
def zeroMem : Mem := fun _ => 0

/-- Object bytes of a `uint16_t` holding `x`, in address order. -/
def u16Bytes (e : Endian) (x : Nat) : List Byte :=
  match e with
  | .little => [Fin.ofNat (x % 256), Fin.ofNat (x / 256 % 256)]
  | .big => [Fin.ofNat (x / 256 % 256), Fin.ofNat (x % 256)]

/-- Value of the `uint16_t` whose two object bytes are `b0` (lower address) and `b1`. -/
def u16OfBytes (e : Endian) (b0 b1 : Byte) : Nat :=
  match e with
  | .little => b0.val + 256 * b1.val
  | .big => 256 * b0.val + b1.val

/-- Object bytes of a `w`-byte unsigned integer holding `x`, in address order. -/
def intBytes (e : Endian) (w x : Nat) : List Byte :=
  match e with
  | .little => (List.range w).map (fun i => Fin.ofNat (x / 256 ^ i % 256))
  | .big => ((List.range w).map (fun i => Fin.ofNat (x / 256 ^ i % 256))).reverse

/-! ## CRC-16/XMODEM (`FastCRC16::xmodem`) -/

/-- Modelled from the spec: `FastCRC.h` is an external library and not part of the sources;
the spec names the checksum as CRC-16/XMODEM, that is polynomial `0x1021`, initial value `0`,
most significant bit first, no final xor.  This is one shift step of the 16-bit register. -/
def xmodemShift (crc : Nat) : Nat :=
  if crc &&& 0x8000 ≠ 0 then ((crc <<< 1) ^^^ 0x1021) % 2 ^ 16 else (crc <<< 1) % 2 ^ 16

/-- Modelled from the spec: feed one byte into the CRC-16/XMODEM register (the byte is xored
into the high half, then eight shift steps follow). -/
def xmodem_upd (crc : Nat) (b : Byte) : Nat :=
  xmodemShift^[8] (crc ^^^ (b.val <<< 8))

/-- Modelled from the spec: CRC-16/XMODEM of a byte string, starting from `0`. -/
def xmodemOf (bytes : List Byte) : Nat :=
  bytes.foldl xmodem_upd 0

/-- Modelled from the spec: the call `CRC16.xmodem(data, datalen)`, the CRC-16/XMODEM of the
`datalen` bytes at `data`. -/
def xmodem (data : Mem) (datalen : Nat) : Nat :=
  xmodemOf (readBytes data 0 datalen)

/-! ## Frame codec -/

/-- Method `bufferToData`: `memcpy(data, *buffer + TYPE_SIZE, dataSize)`; the result is the
bytes placed in `*data`. -/
def bufferToData (N : Nat) (buffer : Mem) : List Byte :=
  readBytes buffer TYPE_SIZE (dataSize N)

/-- Method `dataToBuffer`: `*buffer = new uint8_t[packetSize]` (contents `fresh`) followed by
`memcpy(*buffer + TYPE_SIZE, data, packetSize)`.  The length of the copy is `packetSize`, as
in the source: it reads `packetSize` bytes starting at the payload object and stores to
offsets `TYPE_SIZE` up to `TYPE_SIZE + packetSize - 1`. -/
def dataToBuffer (N : Nat) (data : Mem) (fresh : Mem) : Mem :=
  memcpy fresh TYPE_SIZE data 0 (packetSize N)

/-- Method `appendCrc`: the CRC of the first `dataSize + TYPE_SIZE` bytes is copied, as a
`uint16_t` object, to offset `dataSize + TYPE_SIZE` (the copy of `CRC_SIZE` bytes stays inside
the two bytes of `crc`, so what lies behind `crc` is immaterial). -/
def appendCrc (N : Nat) (e : Endian) (buffer : Mem) : Mem :=
  let crc := xmodem buffer (dataSize N + TYPE_SIZE)
  memcpy buffer (dataSize N + TYPE_SIZE) (objectMem (u16Bytes e crc) zeroMem) 0 CRC_SIZE

/-- Method `appendPacketType`: `*buffer[0] = (uint8_t) type`, where `*buffer[0]` is
`*(buffer[0])`, the first byte of the buffer that the argument points to. -/
def appendPacketType (buffer : Mem) (type : PacketType) : Mem :=
  Function.update buffer 0 type.toByte

/-- Method `isCrcValid`: recompute the CRC and compare with the `uint16_t` stored behind the
payload. -/
def isCrcValid (N : Nat) (e : Endian) (buffer : Mem) : Bool :=
  let expectedCrc := xmodem buffer (dataSize N + TYPE_SIZE)
  let receivedCrc :=
    u16OfBytes e (buffer (dataSize N + TYPE_SIZE)) (buffer (dataSize N + TYPE_SIZE + 1))
  expectedCrc == receivedCrc

/-! ## Channel, buses and the outside world -/

/-- An operation performed on a `TwoWire` object that leaves a trace on it. -/
inductive BusOp where
  | onReceive
  | beginTransmission (address : Byte)
  | write (bytes : List Byte)
  | endTransmission
  deriving DecidableEq, Repr

/-- One `TwoWire` object: the bytes waiting to be read (`available()` is their number,
`read()` removes the first) and the operations performed on it so far. -/
structure TwoWire where
  rx : List Byte
  ops : List BusOp

/-- Everything outside the channel object: the `TwoWire` objects, the callback invocations
made so far (callback identity and argument bytes) and the lines printed on `Serial`. -/
structure World where
  buses : Nat → TwoWire
  calls : List (Nat × List Byte)
  requests : List Nat
  serial : List (List Byte)

/-- The global `TwoWire Wire` object declared by `Wire.h`. -/
def Wire : Nat := 0

/-- The data members of `SafeTransfer<T>`; a function pointer or bus pointer is `none` when
null. -/
structure Channel where
  _receiveCallback : Option Nat
  _requestCallback : Option Nat
  _wire : Option Nat
  _address : Byte
  _buffer : Mem

/-- The constructor `SafeTransfer()`: its body is empty and only `_wire` has a default member
initializer (`nullptr`).  The other members start with whatever the storage of the object
holds (null and zero for an object with static storage duration), given here as parameters. -/
def construct (receiveCallback requestCallback : Option Nat) (address : Byte) (buffer : Mem) :
    Channel :=
  { _receiveCallback := receiveCallback, _requestCallback := requestCallback, _wire := none,
    _address := address, _buffer := buffer }

/-- Record an operation on bus `b`. -/
def World.busOp (w : World) (b : Nat) (op : BusOp) : World :=
  { w with buses := Function.update w.buses b { w.buses b with ops := (w.buses b).ops ++ [op] } }

/-- Method `begin`: store the bus pointer; unless built for ESP32, register an empty receive
handler on that bus. -/
def begin (esp32 : Bool) (ch : Channel) (w : World) (wire : Nat) : Channel × World :=
  ({ ch with _wire := some wire }, if esp32 then w else w.busOp wire .onReceive)

/-- Method `setAddress`: store the peer address. -/
def setAddress (ch : Channel) (address : Byte) : Channel :=
  { ch with _address := address }

/-- Method `onReceive`: overwrite the receive-callback slot. -/
def onReceive (ch : Channel) (cb : Option Nat) : Channel :=
  { ch with _receiveCallback := cb }

/-- Method `onRequest`: overwrite the request-callback slot. -/
def onRequest (ch : Channel) (cb : Option Nat) : Channel :=
  { ch with _requestCallback := cb }

/-- Method `receive(buffer)`: print the tag; on `DATA` with a callback registered decode the
payload, print it, and invoke the callback when the CRC matches. -/
def receive (N : Nat) (e : Endian) (ch : Channel) (w : World) (buffer : Mem) : World :=
  let type := buffer 0
  let w1 := { w with serial := w.serial ++ [[type]] }
  if type = PacketType.DATA.toByte then
    match ch._receiveCallback with
    | none => w1
    | some cb =>
      let data := bufferToData N buffer
      let w2 := { w1 with serial := w1.serial ++ [data] }
      if isCrcValid N e buffer then
        { w2 with calls := w2.calls ++ [(cb, data)] }
      else
        w2
  else
    w1

/-- The `while (0 < Wire.available()) _buffer[bufferIndex++] = Wire.read();` loop of `loop`:
`rx` are the bytes still available, `bufferIndex` is a `uint8_t`. -/
def drain (rx : List Byte) (bufferIndex : Nat) (buffer : Mem) : Mem :=
  match rx with
  | [] => buffer
  | b :: rest => drain rest ((bufferIndex + 1) % 2 ^ 8) (Function.update buffer bufferIndex b)

/-- Method `loop`: nothing without a bus pointer; otherwise, when the global `Wire` has bytes
available, drain them into a new buffer (initial contents `fresh`) and hand it to `receive`. -/
def loop (N : Nat) (e : Endian) (ch : Channel) (w : World) (fresh : Mem) : Channel × World :=
  match ch._wire with
  | none => (ch, w)
  | some _ =>
    if (w.buses Wire).rx.length ≠ 0 then
      let buffer := drain (w.buses Wire).rx 0 fresh
      let w1 := { w with buses := Function.update w.buses Wire { w.buses Wire with rx := [] } }
      let ch1 := { ch with _buffer := buffer }
      (ch1, receive N e ch1 w1 buffer)
    else
      (ch, w)

/-- Method `sendToMaster(data)`: nothing without a bus pointer; otherwise build the frame in a
new buffer and write its first `packetSize` bytes to the attached bus.  `data` is the memory
at the address of the by-value argument. -/
def sendToMaster (N : Nat) (e : Endian) (ch : Channel) (w : World) (data : Mem) (fresh : Mem) :
    Channel × World :=
  match ch._wire with
  | none => (ch, w)
  | some b =>
    let b0 := dataToBuffer N data fresh
    let b1 := appendPacketType b0 .DATA
    let b2 := appendCrc N e b1
    ({ ch with _buffer := b2 }, w.busOp b (.write (readBytes b2 0 (packetSize N))))

/-- The buffer that `sendToMaster` assembles for payload bytes `v`: the result of
`dataToBuffer`, `appendPacketType(DATA)` and `appendCrc`, in that order. -/
def frameBuffer (N : Nat) (e : Endian) (v : List Byte) (behind fresh : Mem) : Mem :=
  appendCrc N e (appendPacketType (dataToBuffer N (objectMem v behind) fresh) .DATA)

/-- The `packetSize` bytes that `sendToMaster` passes to `write` for payload bytes `v`. -/
def serialize (N : Nat) (e : Endian) (v : List Byte) (behind fresh : Mem) : List Byte :=
  readBytes (frameBuffer N e v behind fresh) 0 (packetSize N)

/-- A memory whose first bytes are `l` and whose remaining cells are `rest`. -/
def memOfList (l : List Byte) (rest : Mem) : Mem := objectMem l rest

/-! ## Corruption, access footprints and sample states -/

/-- The byte `b` with bit `k` inverted. -/
def flipBit (b : Byte) (k : Nat) : Byte := Fin.ofNat (b.val ^^^ (1 <<< k))

/-- The byte string `l` with bit `k` of its byte number `i` inverted. -/
def flipBitAt (l : List Byte) (i k : Nat) : List Byte :=
  l.set i (flipBit (l.getD i 0) k)

/-- The buffer offsets that `receive` reads: the tag at offset `0`; on `DATA` with a callback
registered also the `dataSize` bytes copied by `bufferToData`, the `dataSize + TYPE_SIZE`
bytes passed to the CRC and the `CRC_SIZE` bytes copied into `receivedCrc`. -/
def receiveReads (N : Nat) (ch : Channel) (buffer : Mem) : List Nat :=
  if buffer 0 = PacketType.DATA.toByte ∧ ch._receiveCallback ≠ none then
    [0] ++ (List.range (dataSize N)).map (fun i => TYPE_SIZE + i)
      ++ List.range (dataSize N + TYPE_SIZE)
      ++ (List.range CRC_SIZE).map (fun i => dataSize N + TYPE_SIZE + i)
  else
    [0]

/-- The buffer offsets that the drain loop of `loop` stores to, in order. -/
def drainWrites (n : Nat) (bufferIndex : Nat) : List Nat :=
  match n with
  | 0 => []
  | n + 1 => bufferIndex :: drainWrites n ((bufferIndex + 1) % 2 ^ 8)

/-- A channel bound to bus `b` with receive callback slot `cb`. -/
def boundChannel (b : Nat) (cb : Option Nat) : Channel :=
  { _receiveCallback := cb, _requestCallback := none, _wire := some b, _address := 0,
    _buffer := zeroMem }

/-- A world with `rx0` available on the global `Wire` (bus `0`), `rx1` available on a second
bus (bus `1`), and no history. -/
def sampleWorld (rx0 rx1 : List Byte) : World :=
  { buses := fun i => if i = 0 then ⟨rx0, []⟩ else if i = 1 then ⟨rx1, []⟩ else ⟨[], []⟩,
    calls := [], requests := [], serial := [] }

/-! ## Controller sends, the request path and copy footprints -/

/-- Method `sendToSlave(address, data)`: nothing without a bus pointer; otherwise
`beginTransmission(address)` on the attached bus, `sendToMaster(data)`, `endTransmission()`.
`data` is the memory at the address of the by-value argument; the call of `sendToMaster`
copies its `sizeof(T) = N` object bytes into a new argument object, behind which lies
`behind`. -/
def sendToSlave (N : Nat) (e : Endian) (ch : Channel) (w : World) (address : Byte) (data : Mem)
    (behind fresh : Mem) : Channel × World :=
  match ch._wire with
  | none => (ch, w)
  | some b =>
    let w1 := w.busOp b (.beginTransmission address)
    let r := sendToMaster N e ch w1 (objectMem (readBytes data 0 N) behind) fresh
    (r.1, r.2.busOp b .endTransmission)

/-- Method `sendToSlave(data)`, the overload without an address:
`this->sendToSlave(_address, data)`, which copies the argument once more (`behind1` lies
behind that copy). -/
def sendToSlaveDefault (N : Nat) (e : Endian) (ch : Channel) (w : World) (data : Mem)
    (behind1 behind fresh : Mem) : Channel × World :=
  sendToSlave N e ch w ch._address (objectMem (readBytes data 0 N) behind1) behind fresh

/-- The member named `write` that `request` calls as `this->write(data)`: the class declares
no member of that name and has no base class, so there is none. -/
def memberWrite : Option (Channel → World → Mem → Channel × World) := none

/-- Method `request`: nothing without a request callback; otherwise the callback is invoked
(it returns the payload bytes `result`) and `this->write(data)` is called.  The result is
`none` where the body has no meaning because the called member does not exist.  (A program
that instantiates `request` is rejected by the compiler as a whole; the early return is given
its evident meaning here.) -/
def request (ch : Channel) (w : World) (result : List Byte) : Option (Channel × World) :=
  match ch._requestCallback with
  | none => some (ch, w)
  | some cb =>
    let w1 := { w with requests := w.requests ++ [cb] }
    match memberWrite with
    | none => none
    | some write => some (write ch w1 (objectMem result zeroMem))

/-- Source offsets read by `memcpy(dst + dOff, src + sOff, n)`. -/
def memcpyReads (sOff n : Nat) : List Nat := (List.range n).map (fun i => sOff + i)

/-- Destination offsets written by `memcpy(dst + dOff, src + sOff, n)`. -/
def memcpyWrites (dOff n : Nat) : List Nat := (List.range n).map (fun i => dOff + i)

/-- Number of bytes that `dataToBuffer` allocates: `new uint8_t[packetSize]`. -/
def dataToBufferAlloc (N : Nat) : Nat := packetSize N

/-- Offsets, counted from the address of the payload object, that `dataToBuffer` reads:
those of `memcpy(*buffer + TYPE_SIZE, data, packetSize)`. -/
def dataToBufferReads (N : Nat) : List Nat := memcpyReads 0 (packetSize N)

/-- Buffer offsets that `dataToBuffer` writes: those of
`memcpy(*buffer + TYPE_SIZE, data, packetSize)`. -/
def dataToBufferWrites (N : Nat) : List Nat := memcpyWrites TYPE_SIZE (packetSize N)

/-- A memory holding `0xFF` everywhere. -/
def ffMem : Mem := fun _ => 0xFF

/-! ## Sizes and memory reads -/

theorem dataSize_eq {N : Nat} (h : N + 3 < 2 ^ 16) : dataSize N = N := by
  unfold dataSize; omega

theorem packetSize_eq {N : Nat} (h : N + 3 < 2 ^ 16) : packetSize N = N + 3 := by
  unfold packetSize dataSize TYPE_SIZE CRC_SIZE; omega

@[simp] theorem readBytes_length (m : Mem) (off n : Nat) : (readBytes m off n).length = n := by
  simp [readBytes]

theorem readBytes_getElem (m : Mem) (off n i : Nat) (h : i < (readBytes m off n).length) :
    (readBytes m off n)[i] = m (off + i) := by
  simp [readBytes]

theorem readBytes_congr {m m2 : Mem} {off n : Nat} (h : ∀ i, i < n → m (off + i) = m2 (off + i)) :
    readBytes m off n = readBytes m2 off n := by
  unfold readBytes
  apply List.map_congr_left
  intro i hi
  exact h i (List.mem_range.mp hi)

theorem readBytes_add (m : Mem) (off a b : Nat) :
    readBytes m off (a + b) = readBytes m off a ++ readBytes m (off + a) b := by
  apply List.ext_getElem
  · simp
  · intro i h1 h2
    rw [readBytes_getElem]
    by_cases hi : i < a
    · rw [List.getElem_append_left (by simpa using hi), readBytes_getElem]
    · rw [List.getElem_append_right (by simpa using hi), readBytes_getElem]
      simp only [readBytes_length]
      congr 1
      omega

theorem readBytes_eq_of_get {m : Mem} {off : Nat} {l : List Byte}
    (h : ∀ i (hi : i < l.length), m (off + i) = l.get ⟨i, hi⟩) : readBytes m off l.length = l := by
  apply List.ext_getElem
  · simp
  · intro i h1 h2
    rw [readBytes_getElem]
    exact h i h2

theorem objectMem_lt (v : List Byte) (behind : Mem) (i : Nat) (h : i < v.length) :
    objectMem v behind i = v.get ⟨i, h⟩ := by
  simp [objectMem, h]

theorem objectMem_ge (v : List Byte) (behind : Mem) (i : Nat) (h : v.length ≤ i) :
    objectMem v behind i = behind (i - v.length) := by
  simp [objectMem, Nat.not_lt.mpr h]

theorem readBytes_objectMem (v : List Byte) (behind : Mem) :
    readBytes (objectMem v behind) 0 v.length = v :=
  readBytes_eq_of_get (fun i hi => by rw [Nat.zero_add]; exact objectMem_lt v behind i hi)

theorem u16Bytes_length (e : Endian) (x : Nat) : (u16Bytes e x).length = 2 := by
  cases e <;> rfl

/-! ## The assembled frame -/

theorem readBytes_one (m : Mem) (off : Nat) : readBytes m off 1 = [m off] := rfl

theorem typed_zero (N : Nat) (data fresh : Mem) :
    appendPacketType (dataToBuffer N data fresh) .DATA 0 = 0 := by
  simp [appendPacketType, PacketType.toByte]

theorem typed_payload {N : Nat} (hN : N + 3 < 2 ^ 16) (data fresh : Mem) (i : Nat) (hi : i < N) :
    appendPacketType (dataToBuffer N data fresh) .DATA (1 + i) = data i := by
  have h1 : (1 + i) ≠ 0 := by omega
  simp only [appendPacketType, Function.update_noteq h1, dataToBuffer, memcpy, TYPE_SIZE,
    packetSize_eq hN]
  rw [if_pos (by omega)]
  congr 1
  omega

theorem typed_prefix {N : Nat} (hN : N + 3 < 2 ^ 16) (v : List Byte) (hv : v.length = N)
    (behind fresh : Mem) :
    readBytes (appendPacketType (dataToBuffer N (objectMem v behind) fresh) .DATA) 0 (N + 1)
      = 0 :: v := by
  rw [Nat.add_comm N 1, readBytes_add]
  rw [readBytes_one, typed_zero]
  subst hv
  rw [readBytes_eq_of_get]
  · rfl
  · intro i hi
    rw [Nat.zero_add, typed_payload hN _ _ i hi, objectMem_lt _ _ _ hi]

theorem xmodem_typed {N : Nat} (hN : N + 3 < 2 ^ 16) (v : List Byte) (hv : v.length = N)
    (behind fresh : Mem) :
    xmodem (appendPacketType (dataToBuffer N (objectMem v behind) fresh) .DATA)
      (dataSize N + TYPE_SIZE) = xmodemOf (0 :: v) := by
  unfold xmodem
  rw [dataSize_eq hN, TYPE_SIZE, typed_prefix hN v hv]

theorem frameBuffer_zero {N : Nat} (hN : N + 3 < 2 ^ 16) (e : Endian) (v : List Byte)
    (behind fresh : Mem) : frameBuffer N e v behind fresh 0 = 0 := by
  unfold frameBuffer appendCrc memcpy
  simp only [dataSize_eq hN, TYPE_SIZE]
  rw [if_neg (by omega)]
  exact typed_zero _ _ _

theorem frameBuffer_payload {N : Nat} (hN : N + 3 < 2 ^ 16) (e : Endian) (v : List Byte)
    (hv : v.length = N) (behind fresh : Mem) (i : Nat) (hi : i < N) :
    frameBuffer N e v behind fresh (1 + i) = v.get ⟨i, hv ▸ hi⟩ := by
  unfold frameBuffer appendCrc memcpy
  simp only [dataSize_eq hN, TYPE_SIZE]
  rw [if_neg (by omega), typed_payload hN _ _ i hi, objectMem_lt]

theorem frameBuffer_crc {N : Nat} (hN : N + 3 < 2 ^ 16) (e : Endian) (v : List Byte)
    (hv : v.length = N) (behind fresh : Mem) :
    readBytes (frameBuffer N e v behind fresh) (N + 1) 2 = u16Bytes e (xmodemOf (0 :: v)) := by
  have hl := u16Bytes_length e (xmodemOf (0 :: v))
  rw [← hl]
  apply readBytes_eq_of_get
  intro i hi
  unfold frameBuffer appendCrc
  simp only [xmodem_typed hN v hv]
  simp only [memcpy, dataSize_eq hN, TYPE_SIZE, CRC_SIZE]
  rw [if_pos (by omega)]
  have hi2 : 0 + (N + 1 + i - (N + 1)) = i := by omega
  rw [hi2, objectMem_lt _ _ _ hi]

theorem serialize_eq {N : Nat} (hN : N + 3 < 2 ^ 16) (e : Endian) (v : List Byte)
    (hv : v.length = N) (behind fresh : Mem) :
    serialize N e v behind fresh = 0 :: v ++ u16Bytes e (xmodemOf (0 :: v)) := by
  unfold serialize
  rw [packetSize_eq hN, show N + 3 = (1 + N) + 2 by omega, readBytes_add, readBytes_add]
  simp only [Nat.zero_add]
  rw [Nat.add_comm 1 N, frameBuffer_crc hN e v hv, readBytes_one, frameBuffer_zero hN]
  have h1 : readBytes (frameBuffer N e v behind fresh) 1 N = v := by
    subst hv
    apply readBytes_eq_of_get
    intro i hi
    exact frameBuffer_payload hN e v rfl behind fresh i hi
  rw [h1]
  rfl

/-! ## The CRC register: bounds and injectivity -/

theorem xor_mod_two_pow (a b n : Nat) : (a ^^^ b) % 2 ^ n = (a % 2 ^ n) ^^^ (b % 2 ^ n) := by
  apply Nat.eq_of_testBit_eq
  intro i
  simp only [Nat.testBit_mod_two_pow, Nat.testBit_xor]
  cases decide (i < n) <;> simp

theorem land_top_bit (s : Nat) (h : s < 2 ^ 16) : s &&& 0x8000 ≠ 0 ↔ 2 ^ 15 ≤ s := by
  have h1 : s &&& 2 ^ 15 = if s.testBit 15 = true then 2 ^ 15 else 0 := by
    apply Nat.eq_of_testBit_eq
    intro i
    rw [Nat.testBit_and, Nat.testBit_two_pow]
    by_cases hb : s.testBit 15 = true
    · rw [if_pos hb, Nat.testBit_two_pow]
      by_cases hi : 15 = i
      · subst hi
        rw [hb]
        rfl
      · rw [decide_eq_false hi, Bool.and_false]
    · rw [if_neg hb, Nat.zero_testBit]
      by_cases hi : 15 = i
      · subst hi
        rw [Bool.not_eq_true] at hb
        rw [hb]
        rfl
      · rw [decide_eq_false hi, Bool.and_false]
  have h2 : s.testBit 15 = decide (s / 2 ^ 15 % 2 = 1) := Nat.testBit_to_div_mod
  have h3 : (0x8000 : Nat) = 2 ^ 15 := by norm_num
  rw [h3, h1]
  by_cases hb : s.testBit 15 = true
  · rw [if_pos hb]
    have h4 : s / 2 ^ 15 % 2 = 1 := of_decide_eq_true (h2 ▸ hb)
    constructor
    · intro _
      omega
    · intro _
      norm_num
  · rw [if_neg hb]
    have h4 : ¬ (s / 2 ^ 15 % 2 = 1) := fun h5 => hb (h2 ▸ decide_eq_true h5)
    constructor
    · intro h5
      exact absurd rfl h5
    · intro h5
      omega

theorem xmodemShift_low (s : Nat) (h : s < 2 ^ 15) : xmodemShift s = 2 * s := by
  have hs : s < 2 ^ 16 := by omega
  have hn : ¬ (s &&& 0x8000 ≠ 0) := by rw [land_top_bit s hs]; omega
  unfold xmodemShift
  rw [if_neg hn, Nat.shiftLeft_eq]
  omega

theorem xmodemShift_high (s : Nat) (h1 : 2 ^ 15 ≤ s) (h2 : s < 2 ^ 16) :
    xmodemShift s = (2 * s - 2 ^ 16) ^^^ 0x1021 := by
  have hn : s &&& 0x8000 ≠ 0 := (land_top_bit s h2).mpr h1
  unfold xmodemShift
  have hc : 0x1021 % 2 ^ 16 = 0x1021 := by norm_num
  have hm : s * 2 ^ 1 % 2 ^ 16 = 2 * s - 2 ^ 16 := by omega
  rw [if_pos hn, Nat.shiftLeft_eq, xor_mod_two_pow, hc, hm]

theorem xmodemShift_lt (s : Nat) : xmodemShift s < 2 ^ 16 := by
  unfold xmodemShift
  split <;> exact Nat.mod_lt _ (by norm_num)

theorem xmodemShift_inj {s t : Nat} (hs : s < 2 ^ 16) (ht : t < 2 ^ 16)
    (h : xmodemShift s = xmodemShift t) : s = t := by
  have odd : ∀ x : Nat, x < 2 ^ 16 → 2 ^ 15 ≤ x → xmodemShift x % 2 = 1 := by
    intro x hx1 hx2
    rw [xmodemShift_high x hx2 hx1, Nat.xor_mod_two_eq_one]
    omega
  by_cases h1 : s < 2 ^ 15 <;> by_cases h2 : t < 2 ^ 15
  · rw [xmodemShift_low s h1, xmodemShift_low t h2] at h
    omega
  · have := odd t ht (by omega)
    rw [← h, xmodemShift_low s h1] at this
    omega
  · have := odd s hs (by omega)
    rw [h, xmodemShift_low t h2] at this
    omega
  · rw [xmodemShift_high s (by omega) hs, xmodemShift_high t (by omega) ht,
      Nat.xor_left_inj] at h
    omega

theorem xmodemShift_iterate_lt (n s : Nat) (hs : s < 2 ^ 16) : xmodemShift^[n] s < 2 ^ 16 := by
  induction n generalizing s with
  | zero => exact hs
  | succ n ih => exact ih _ (xmodemShift_lt s)

theorem xmodemShift_iterate_inj (n : Nat) {s t : Nat} (hs : s < 2 ^ 16) (ht : t < 2 ^ 16)
    (h : xmodemShift^[n] s = xmodemShift^[n] t) : s = t := by
  induction n generalizing s t with
  | zero => exact h
  | succ n ih =>
    exact xmodemShift_inj hs ht (ih (xmodemShift_lt s) (xmodemShift_lt t) h)

theorem byte_shift_lt (b : Byte) : b.val <<< 8 < 2 ^ 16 := by
  have := b.isLt
  rw [Nat.shiftLeft_eq]
  omega

theorem xmodem_upd_lt (s : Nat) (b : Byte) (hs : s < 2 ^ 16) : xmodem_upd s b < 2 ^ 16 :=
  xmodemShift_iterate_lt 8 _ (Nat.xor_lt_two_pow hs (byte_shift_lt b))

theorem xmodem_upd_inj_state {s t : Nat} (b : Byte) (hs : s < 2 ^ 16) (ht : t < 2 ^ 16)
    (h : xmodem_upd s b = xmodem_upd t b) : s = t := by
  have := xmodemShift_iterate_inj 8 (Nat.xor_lt_two_pow hs (byte_shift_lt b))
    (Nat.xor_lt_two_pow ht (byte_shift_lt b)) h
  exact Nat.xor_left_inj.mp this

theorem xmodem_upd_inj_byte {s : Nat} {a b : Byte} (hs : s < 2 ^ 16)
    (h : xmodem_upd s a = xmodem_upd s b) : a = b := by
  have := xmodemShift_iterate_inj 8 (Nat.xor_lt_two_pow hs (byte_shift_lt a))
    (Nat.xor_lt_two_pow hs (byte_shift_lt b)) h
  have h2 : a.val <<< 8 = b.val <<< 8 := Nat.xor_right_inj.mp this
  rw [Nat.shiftLeft_eq, Nat.shiftLeft_eq] at h2
  apply Fin.ext
  omega

theorem foldl_upd_lt (l : List Byte) (s : Nat) (hs : s < 2 ^ 16) :
    l.foldl xmodem_upd s < 2 ^ 16 := by
  induction l generalizing s with
  | nil => exact hs
  | cons b l ih => exact ih _ (xmodem_upd_lt s b hs)

theorem foldl_upd_inj (l : List Byte) {s t : Nat} (hs : s < 2 ^ 16) (ht : t < 2 ^ 16)
    (h : l.foldl xmodem_upd s = l.foldl xmodem_upd t) : s = t := by
  induction l generalizing s t with
  | nil => exact h
  | cons b l ih =>
    exact xmodem_upd_inj_state b hs ht (ih (xmodem_upd_lt s b hs) (xmodem_upd_lt t b ht) h)

/-- The model reproduces the published check value of CRC-16/XMODEM: the CRC of the ASCII
string `123456789` is `0x31C3`. -/
theorem xmodemOf_check :
    xmodemOf [0x31, 0x32, 0x33, 0x34, 0x35, 0x36, 0x37, 0x38, 0x39] = 0x31C3 := by
  decide

theorem xmodemOf_lt (l : List Byte) : xmodemOf l < 2 ^ 16 :=
  foldl_upd_lt l 0 (by norm_num)

/-- Replacing one byte of a message by a different byte changes its CRC-16/XMODEM. -/
theorem xmodemOf_set_ne (l : List Byte) (i : Nat) (hi : i < l.length) (b : Byte)
    (hb : b ≠ l.get ⟨i, hi⟩) : xmodemOf (l.set i b) ≠ xmodemOf l := by
  intro h
  have hl : l = l.take i ++ l.get ⟨i, hi⟩ :: l.drop (i + 1) := by
    simp
  have hset : l.set i b = l.take i ++ b :: l.drop (i + 1) := by
    rw [List.set_eq_take_append_cons_drop, if_pos hi]
  rw [hset] at h
  conv at h => rhs; rw [hl]
  unfold xmodemOf at h
  rw [List.foldl_append, List.foldl_append, List.foldl_cons, List.foldl_cons] at h
  have hp := foldl_upd_lt (l.take i) 0 (by norm_num)
  have := foldl_upd_inj _ (xmodem_upd_lt _ b hp) (xmodem_upd_lt _ (l.get ⟨i, hi⟩) hp) h
  exact hb (xmodem_upd_inj_byte hp this)

/-! ## The CRC check -/

theorem u16Bytes_u16OfBytes (e : Endian) (b0 b1 : Byte) :
    u16Bytes e (u16OfBytes e b0 b1) = [b0, b1] := by
  have h0 := b0.isLt
  have h1 := b1.isLt
  cases e
  · simp only [u16Bytes, u16OfBytes, Fin.ofNat]
    congr 1
    · apply Fin.ext; simp only []; omega
    · congr 1; apply Fin.ext; simp only []; omega
  · simp only [u16Bytes, u16OfBytes, Fin.ofNat]
    congr 1
    · apply Fin.ext; simp only []; omega
    · congr 1; apply Fin.ext; simp only []; omega

theorem u16OfBytes_of_u16Bytes (e : Endian) (x : Nat) (hx : x < 2 ^ 16) (b0 b1 : Byte)
    (h : u16Bytes e x = [b0, b1]) : u16OfBytes e b0 b1 = x := by
  cases e
  · simp only [u16Bytes, Fin.ofNat, List.cons.injEq, and_true] at h
    obtain ⟨h0, h1⟩ := h
    subst h0 h1
    simp only [u16OfBytes]
    omega
  · simp only [u16Bytes, Fin.ofNat, List.cons.injEq, and_true] at h
    obtain ⟨h0, h1⟩ := h
    subst h0 h1
    simp only [u16OfBytes]
    omega

theorem u16_eq_iff (e : Endian) (x : Nat) (hx : x < 2 ^ 16) (b0 b1 : Byte) :
    x = u16OfBytes e b0 b1 ↔ u16Bytes e x = [b0, b1] := by
  constructor
  · intro h
    rw [h, u16Bytes_u16OfBytes]
  · intro h
    exact (u16OfBytes_of_u16Bytes e x hx b0 b1 h).symm

theorem readBytes_two (m : Mem) (off : Nat) : readBytes m off 2 = [m off, m (off + 1)] := rfl

theorem isCrcValid_iff {N : Nat} (hN : N + 3 < 2 ^ 16) (e : Endian) (buffer : Mem) :
    isCrcValid N e buffer = true ↔
      readBytes buffer (1 + N) 2 = u16Bytes e (xmodemOf (readBytes buffer 0 (1 + N))) := by
  unfold isCrcValid xmodem
  simp only [dataSize_eq hN, TYPE_SIZE, beq_iff_eq]
  rw [u16_eq_iff e _ (xmodemOf_lt _), readBytes_two, Nat.add_comm 1 N]
  exact eq_comm

theorem appendCrc_field {N : Nat} (hN : N + 3 < 2 ^ 16) (e : Endian) (buffer : Mem) :
    readBytes (appendCrc N e buffer) (1 + N) 2
      = u16Bytes e (xmodemOf (readBytes buffer 0 (1 + N))) := by
  have hl := u16Bytes_length e (xmodemOf (readBytes buffer 0 (1 + N)))
  rw [← hl]
  apply readBytes_eq_of_get
  intro i hi
  unfold appendCrc xmodem
  simp only [memcpy, dataSize_eq hN, TYPE_SIZE, CRC_SIZE]
  rw [if_pos (by omega)]
  have hi2 : 0 + (1 + N + i - (N + 1)) = i := by omega
  rw [hi2, Nat.add_comm N 1, objectMem_lt _ _ _ hi]

theorem memOfList_lt (l : List Byte) (rest : Mem) (i : Nat) (h : i < l.length) :
    memOfList l rest i = l.get ⟨i, h⟩ := objectMem_lt l rest i h

theorem readBytes_memOfList (l : List Byte) (rest : Mem) :
    readBytes (memOfList l rest) 0 l.length = l := readBytes_objectMem l rest

theorem readBytes_memOfList_append (p q : List Byte) (rest : Mem) :
    readBytes (memOfList (p ++ q) rest) 0 p.length = p ∧
    readBytes (memOfList (p ++ q) rest) p.length q.length = q := by
  have h := readBytes_memOfList (p ++ q) rest
  rw [List.length_append, readBytes_add, Nat.zero_add] at h
  have hl : (readBytes (memOfList (p ++ q) rest) 0 p.length).length = p.length := by simp
  exact List.append_inj h hl

/-- The CRC check on a received byte string `p ++ [c0, c1]` whose covered part `p` has
`1 + sizeof(T)` bytes. -/
theorem isCrcValid_memOfList {N : Nat} (hN : N + 3 < 2 ^ 16) (e : Endian) (p : List Byte)
    (hp : p.length = 1 + N) (c0 c1 : Byte) (rest : Mem) :
    isCrcValid N e (memOfList (p ++ [c0, c1]) rest) = true ↔ [c0, c1] = u16Bytes e (xmodemOf p) := by
  rw [isCrcValid_iff hN]
  have h := readBytes_memOfList_append p [c0, c1] rest
  rw [hp] at h
  rw [h.1]
  have h2 : readBytes (memOfList (p ++ [c0, c1]) rest) (1 + N) 2 = [c0, c1] := h.2
  rw [h2]

/-! ## Codec and sender -/

theorem bufferToData_frameBuffer {N : Nat} (hN : N + 3 < 2 ^ 16) (e : Endian) (v : List Byte)
    (hv : v.length = N) (behind fresh : Mem) :
    bufferToData N (frameBuffer N e v behind fresh) = v := by
  unfold bufferToData
  rw [dataSize_eq hN, TYPE_SIZE]
  subst hv
  exact readBytes_eq_of_get (fun i hi => frameBuffer_payload hN e v rfl behind fresh i hi)

/-- C2 (round trip): for a payload type whose frame size fits the 16-bit size members and
every payload value `v` of that type, the buffer built by `dataToBuffer`,
`appendPacketType(DATA)` and `appendCrc` has the `DATA` tag at offset 0 and `bufferToData`
returns exactly the bytes of `v`. -/
theorem roundtrip_data (N : Nat) (hN : N + 3 < 2 ^ 16) (e : Endian) (v : List Byte)
    (hv : v.length = N) (behind fresh : Mem) :
    appendCrc N e (appendPacketType (dataToBuffer N (objectMem v behind) fresh) .DATA) 0
        = PacketType.DATA.toByte ∧
    bufferToData N
        (appendCrc N e (appendPacketType (dataToBuffer N (objectMem v behind) fresh) .DATA))
        = v :=
  ⟨frameBuffer_zero hN e v behind fresh, bufferToData_frameBuffer hN e v hv behind fresh⟩

/-- Witness for C2 at the 4-byte payload `2A 00 00 00`. -/
theorem roundtrip_data_witness :
    4 + 3 < 2 ^ 16 ∧ ([0x2A, 0, 0, 0] : List Byte).length = 4 ∧
    (appendCrc 4 .little (appendPacketType
        (dataToBuffer 4 (objectMem [0x2A, 0, 0, 0] zeroMem) zeroMem) .DATA) 0
        = PacketType.DATA.toByte ∧
     bufferToData 4 (appendCrc 4 .little (appendPacketType
        (dataToBuffer 4 (objectMem [0x2A, 0, 0, 0] zeroMem) zeroMem) .DATA))
        = [0x2A, 0, 0, 0]) :=
  ⟨by decide, by decide,
    roundtrip_data 4 (by decide) .little [0x2A, 0, 0, 0] (by decide) zeroMem zeroMem⟩

theorem sendToMaster_bound (N : Nat) (e : Endian) (ch : Channel) (w : World) (b : Nat)
    (hb : ch._wire = some b) (data fresh : Mem) :
    sendToMaster N e ch w data fresh =
      ({ ch with _buffer := appendCrc N e (appendPacketType (dataToBuffer N data fresh) .DATA) },
        w.busOp b (.write (readBytes
          (appendCrc N e (appendPacketType (dataToBuffer N data fresh) .DATA)) 0 (packetSize N)))) := by
  unfold sendToMaster
  rw [hb]

/-- C3 (frame layout): on a channel bound to bus `b`, `sendToMaster(v)` appends exactly one
`write` to the operations of bus `b` and changes nothing else outside the channel; the bytes
written have length `1 + N + 2`, start with the `DATA` tag `0`, continue with the `N` bytes
of `v`, and end with the two object bytes of the `uint16_t` holding the CRC-16/XMODEM of the
first `1 + N` bytes of the same sequence (so the two trailing bytes decode to that CRC). -/
theorem sendToMaster_frame_layout (N : Nat) (hN : N + 3 < 2 ^ 16) (e : Endian) (ch : Channel)
    (w : World) (b : Nat) (hb : ch._wire = some b) (v : List Byte) (hv : v.length = N)
    (behind fresh : Mem) :
    (sendToMaster N e ch w (objectMem v behind) fresh).2
        = w.busOp b (.write (serialize N e v behind fresh)) ∧
    (serialize N e v behind fresh).length = 1 + N + 2 ∧
    (serialize N e v behind fresh).take 1 = [PacketType.DATA.toByte] ∧
    ((serialize N e v behind fresh).drop 1).take N = v ∧
    (serialize N e v behind fresh).drop (1 + N)
        = u16Bytes e (xmodemOf ((serialize N e v behind fresh).take (1 + N))) ∧
    (∀ c0 c1, (serialize N e v behind fresh).drop (1 + N) = [c0, c1] →
        u16OfBytes e c0 c1 = xmodemOf ((serialize N e v behind fresh).take (1 + N))) := by
  have hs := serialize_eq hN e v hv behind fresh
  have htake : (serialize N e v behind fresh).take (1 + N) = 0 :: v := by
    rw [hs, show 1 + N = (0 :: v).length by simp [hv]; omega]
    exact List.take_left' rfl
  have hdrop : (serialize N e v behind fresh).drop (1 + N) = u16Bytes e (xmodemOf (0 :: v)) := by
    rw [hs, show 1 + N = (0 :: v).length by simp [hv]; omega]
    exact List.drop_left' rfl
  refine ⟨?_, ?_, ?_, ?_, ?_, ?_⟩
  · rw [sendToMaster_bound N e ch w b hb]
    rfl
  · unfold serialize
    rw [readBytes_length, packetSize_eq hN]
    omega
  · rw [hs]
    rfl
  · rw [hs, List.cons_append, List.drop_succ_cons, List.drop_zero, ← hv]
    exact List.take_left' rfl
  · rw [htake, hdrop]
  · intro c0 c1 h
    rw [htake]
    rw [hdrop] at h
    exact u16OfBytes_of_u16Bytes e _ (xmodemOf_lt _) c0 c1 h

/-- Witness for C3: a channel bound to bus `1` sending the 4-byte payload `2A 00 00 00`. -/
theorem sendToMaster_frame_layout_witness :
    4 + 3 < 2 ^ 16 ∧ (boundChannel 1 none)._wire = some 1 ∧
    ([0x2A, 0, 0, 0] : List Byte).length = 4 ∧
    ((sendToMaster 4 .little (boundChannel 1 none) (sampleWorld [] [])
        (objectMem [0x2A, 0, 0, 0] zeroMem) zeroMem).2
      = (sampleWorld [] []).busOp 1
          (.write (serialize 4 .little [0x2A, 0, 0, 0] zeroMem zeroMem)) ∧
    (serialize 4 .little [0x2A, 0, 0, 0] zeroMem zeroMem).length = 1 + 4 + 2 ∧
    (serialize 4 .little [0x2A, 0, 0, 0] zeroMem zeroMem).take 1 = [PacketType.DATA.toByte] ∧
    ((serialize 4 .little [0x2A, 0, 0, 0] zeroMem zeroMem).drop 1).take 4 = [0x2A, 0, 0, 0] ∧
    (serialize 4 .little [0x2A, 0, 0, 0] zeroMem zeroMem).drop (1 + 4)
      = u16Bytes .little
          (xmodemOf ((serialize 4 .little [0x2A, 0, 0, 0] zeroMem zeroMem).take (1 + 4))) ∧
    (∀ c0 c1, (serialize 4 .little [0x2A, 0, 0, 0] zeroMem zeroMem).drop (1 + 4) = [c0, c1] →
      u16OfBytes .little c0 c1
        = xmodemOf ((serialize 4 .little [0x2A, 0, 0, 0] zeroMem zeroMem).take (1 + 4)))) :=
  ⟨by decide, rfl, rfl,
    sendToMaster_frame_layout 4 (by decide) .little (boundChannel 1 none)
      (sampleWorld [] []) 1 rfl [0x2A, 0, 0, 0] rfl zeroMem zeroMem⟩

/-! ## Byte order and error detection -/

/-- C4 (counterexample): on neither byte order is the frame of the 4-byte integer 42 the
sequence `00 2A 00 00 00 crc_hi crc_lo`; the sender stores the CRC as a `uint16_t` object, so
on the little-endian target that lays 42 out as `2A 00 00 00` the low byte comes first. -/
theorem serialize_42_not_hi_lo :
    serialize 4 .little (intBytes .little 4 42) zeroMem zeroMem
      ≠ [0x00, 0x2A, 0x00, 0x00, 0x00,
          Fin.ofNat (xmodemOf [0x00, 0x2A, 0x00, 0x00, 0x00] / 256 % 256),
          Fin.ofNat (xmodemOf [0x00, 0x2A, 0x00, 0x00, 0x00] % 256)] ∧
    serialize 4 .big (intBytes .big 4 42) zeroMem zeroMem
      ≠ [0x00, 0x2A, 0x00, 0x00, 0x00,
          Fin.ofNat (xmodemOf [0x00, 0x2A, 0x00, 0x00, 0x00] / 256 % 256),
          Fin.ofNat (xmodemOf [0x00, 0x2A, 0x00, 0x00, 0x00] % 256)] := by
  constructor <;> decide

/-- C4 (amended): on a little-endian target the frame of the 4-byte integer 42 is
`00 2A 00 00 00 crc_lo crc_hi`, where `crc = 0x5FE5` is the CRC-16/XMODEM of the first five
bytes, its low byte `E5` at offset 5 and its high byte `5F` at offset 6. -/
theorem serialize_42_little (behind fresh : Mem) :
    serialize 4 .little (intBytes .little 4 42) behind fresh
      = [0x00, 0x2A, 0x00, 0x00, 0x00,
          Fin.ofNat (xmodemOf [0x00, 0x2A, 0x00, 0x00, 0x00] % 256),
          Fin.ofNat (xmodemOf [0x00, 0x2A, 0x00, 0x00, 0x00] / 256 % 256)] ∧
    xmodemOf [0x00, 0x2A, 0x00, 0x00, 0x00] = 0x5FE5 ∧
    (serialize 4 .little (intBytes .little 4 42) behind fresh).drop 5 = [0xE5, 0x5F] := by
  have h := serialize_eq (N := 4) (by decide) .little (intBytes .little 4 42) (by decide)
    behind fresh
  rw [h]
  decide

theorem flipBit_ne (b : Byte) (k : Nat) (hk : k < 8) : flipBit b k ≠ b := by
  intro h
  have hb := b.isLt
  have h1 : 1 <<< k < 2 ^ 8 := by
    rw [Nat.shiftLeft_eq, Nat.one_mul]
    exact Nat.pow_lt_pow_right (by norm_num) hk
  have h2 : b.val ^^^ (1 <<< k) < 2 ^ 8 := Nat.xor_lt_two_pow hb h1
  have h3 : (flipBit b k).val = b.val ^^^ (1 <<< k) := by
    simp only [flipBit, Fin.ofNat]
    exact Nat.mod_eq_of_lt h2
  rw [h] at h3
  have h4 : b.val ^^^ (1 <<< k) = b.val ^^^ 0 := by rw [Nat.xor_zero]; exact h3.symm
  have h5 := Nat.xor_right_inj.mp h4
  rw [Nat.shiftLeft_eq, Nat.one_mul] at h5
  exact absurd h5 (Nat.pos_iff_ne_zero.mp (Nat.pow_pos (by norm_num)))

theorem u16Bytes_inj (e : Endian) {x y : Nat} (hx : x < 2 ^ 16) (hy : y < 2 ^ 16)
    (h : u16Bytes e x = u16Bytes e y) : x = y := by
  obtain ⟨b0, b1, hb⟩ : ∃ b0 b1, u16Bytes e y = [b0, b1] := by
    cases e <;> exact ⟨_, _, rfl⟩
  rw [← u16OfBytes_of_u16Bytes e x hx b0 b1 (h.trans hb),
    ← u16OfBytes_of_u16Bytes e y hy b0 b1 hb]

/-- Replacing one byte of the CRC-covered part of a frame, and keeping the CRC field, makes the
CRC check fail. -/
theorem byte_change_detected {N : Nat} (hN : N + 3 < 2 ^ 16) (e : Endian) (v : List Byte)
    (hv : v.length = N) (behind fresh rest : Mem) (i : Nat) (hi : i < 1 + N) (b : Byte)
    (hb : b ≠ (serialize N e v behind fresh).getD i 0) :
    isCrcValid N e (memOfList ((serialize N e v behind fresh).set i b) rest) = false := by
  rw [serialize_eq hN e v hv behind fresh] at hb ⊢
  have hlen : (0 :: v).length = 1 + N := by simp [hv]; omega
  have hi2 : i < (0 :: v).length := by omega
  rw [List.getD_append _ _ _ _ hi2, List.getD_eq_getElem _ _ hi2] at hb
  rw [List.set_append_left _ _ hi2]
  obtain ⟨c0, c1, hc⟩ : ∃ c0 c1, u16Bytes e (xmodemOf (0 :: v)) = [c0, c1] := by
    cases e <;> exact ⟨_, _, rfl⟩
  rw [hc]
  apply Bool.eq_false_iff.mpr
  intro hvalid
  rw [isCrcValid_memOfList hN e _ (by rw [List.length_set]; exact hlen)] at hvalid
  rw [← hc] at hvalid
  have := u16Bytes_inj e (xmodemOf_lt _) (xmodemOf_lt _) hvalid
  exact xmodemOf_set_ne (0 :: v) i hi2 b hb this.symm

/-- C5 (single-bit error detection): for every payload value `v`, every byte index `i` inside
the first `1 + sizeof(T)` bytes of the frame serialized from `v` and every bit `k < 8`, the
frame with that one bit inverted fails `isCrcValid`. -/
theorem single_bit_flip_detected (N : Nat) (hN : N + 3 < 2 ^ 16) (e : Endian) (v : List Byte)
    (hv : v.length = N) (behind fresh rest : Mem) (i k : Nat) (hi : i < 1 + N) (hk : k < 8) :
    isCrcValid N e (memOfList (flipBitAt (serialize N e v behind fresh) i k) rest) = false :=
  byte_change_detected hN e v hv behind fresh rest i hi _ (flipBit_ne _ k hk)

/-- Witness for C5: bit 3 of the first payload byte of the frame of `2A 00 00 00`. -/
theorem single_bit_flip_detected_witness :
    4 + 3 < 2 ^ 16 ∧ ([0x2A, 0, 0, 0] : List Byte).length = 4 ∧ 1 < 1 + 4 ∧ 3 < 8 ∧
    isCrcValid 4 .little
      (memOfList (flipBitAt (serialize 4 .little [0x2A, 0, 0, 0] zeroMem zeroMem) 1 3) zeroMem)
      = false :=
  ⟨by decide, rfl, by decide, by decide,
    single_bit_flip_detected 4 (by decide) .little [0x2A, 0, 0, 0] rfl zeroMem zeroMem zeroMem
      1 3 (by decide) (by decide)⟩

/-- C6 (the CRC check is exact): for every buffer, `isCrcValid` is true exactly when the two
bytes behind the payload equal the two bytes that `appendCrc` would store there, which are the
object bytes of the CRC-16/XMODEM of bytes `[0, 1 + sizeof(T))`; hence a serialized frame whose
CRC field alone is replaced by any different two bytes fails the check. -/
theorem isCrcValid_exact (N : Nat) (hN : N + 3 < 2 ^ 16) (e : Endian) (buffer : Mem) :
    (isCrcValid N e buffer = true ↔
      readBytes buffer (1 + N) 2 = readBytes (appendCrc N e buffer) (1 + N) 2) ∧
    readBytes (appendCrc N e buffer) (1 + N) 2
      = u16Bytes e (xmodemOf (readBytes buffer 0 (1 + N))) ∧
    (∀ (v : List Byte) (behind fresh rest : Mem) (c0 c1 : Byte), v.length = N →
      [c0, c1] ≠ (serialize N e v behind fresh).drop (1 + N) →
      isCrcValid N e
        (memOfList ((serialize N e v behind fresh).take (1 + N) ++ [c0, c1]) rest) = false) := by
  refine ⟨?_, appendCrc_field hN e buffer, ?_⟩
  · rw [appendCrc_field hN e buffer]
    exact isCrcValid_iff hN e buffer
  · intro v behind fresh rest c0 c1 hv hne
    have hs := serialize_eq hN e v hv behind fresh
    have hlen : (0 :: v).length = 1 + N := by simp [hv]; omega
    have htake : (serialize N e v behind fresh).take (1 + N) = 0 :: v := by
      rw [hs, ← hlen]
      exact List.take_left' rfl
    have hdrop : (serialize N e v behind fresh).drop (1 + N)
        = u16Bytes e (xmodemOf (0 :: v)) := by
      rw [hs, ← hlen]
      exact List.drop_left' rfl
    rw [htake]
    rw [hdrop] at hne
    apply Bool.eq_false_iff.mpr
    intro hvalid
    rw [isCrcValid_memOfList hN e _ hlen] at hvalid
    exact hne hvalid

/-- Witness for C6 at the 4-byte payload size.  The buffer holding the frame of 42 has the
non-zero CRC `0x5FE5`, stored as `E5 5F`: the check accepts it and both sides of the
equivalence are true.  The same frame with the CRC field changed to `E5 5E` is rejected: both
sides of the equivalence are false, and the third part of the theorem, applied to the payload
`2A 00 00 00` and the replacement field `E5 5E`, gives the rejection as well. -/
theorem isCrcValid_exact_witness :
    4 + 3 < 2 ^ 16 ∧
    xmodemOf (readBytes (memOfList [0, 0x2A, 0, 0, 0, 0xE5, 0x5F] zeroMem) 0 (1 + 4)) = 0x5FE5 ∧
    ((isCrcValid 4 .little (memOfList [0, 0x2A, 0, 0, 0, 0xE5, 0x5F] zeroMem) = true ↔
        readBytes (memOfList [0, 0x2A, 0, 0, 0, 0xE5, 0x5F] zeroMem) (1 + 4) 2
          = readBytes (appendCrc 4 .little (memOfList [0, 0x2A, 0, 0, 0, 0xE5, 0x5F] zeroMem))
              (1 + 4) 2) ∧
      isCrcValid 4 .little (memOfList [0, 0x2A, 0, 0, 0, 0xE5, 0x5F] zeroMem) = true ∧
      readBytes (memOfList [0, 0x2A, 0, 0, 0, 0xE5, 0x5F] zeroMem) (1 + 4) 2 = [0xE5, 0x5F] ∧
      readBytes (appendCrc 4 .little (memOfList [0, 0x2A, 0, 0, 0, 0xE5, 0x5F] zeroMem))
          (1 + 4) 2
        = u16Bytes .little
            (xmodemOf (readBytes (memOfList [0, 0x2A, 0, 0, 0, 0xE5, 0x5F] zeroMem) 0 (1 + 4)))) ∧
    ((isCrcValid 4 .little (memOfList [0, 0x2A, 0, 0, 0, 0xE5, 0x5E] zeroMem) = true ↔
        readBytes (memOfList [0, 0x2A, 0, 0, 0, 0xE5, 0x5E] zeroMem) (1 + 4) 2
          = readBytes (appendCrc 4 .little (memOfList [0, 0x2A, 0, 0, 0, 0xE5, 0x5E] zeroMem))
              (1 + 4) 2) ∧
      isCrcValid 4 .little (memOfList [0, 0x2A, 0, 0, 0, 0xE5, 0x5E] zeroMem) = false ∧
      readBytes (memOfList [0, 0x2A, 0, 0, 0, 0xE5, 0x5E] zeroMem) (1 + 4) 2 = [0xE5, 0x5E] ∧
      readBytes (appendCrc 4 .little (memOfList [0, 0x2A, 0, 0, 0, 0xE5, 0x5E] zeroMem))
          (1 + 4) 2 = [0xE5, 0x5F]) ∧
    (([0x2A, 0, 0, 0] : List Byte).length = 4 ∧
      (serialize 4 .little [0x2A, 0, 0, 0] zeroMem zeroMem).drop (1 + 4) = [0xE5, 0x5F] ∧
      ([0xE5, 0x5E] : List Byte) ≠ (serialize 4 .little [0x2A, 0, 0, 0] zeroMem zeroMem).drop (1 + 4) ∧
      (serialize 4 .little [0x2A, 0, 0, 0] zeroMem zeroMem).take (1 + 4) ++ [0xE5, 0x5E]
        = [0, 0x2A, 0, 0, 0, 0xE5, 0x5E] ∧
      isCrcValid 4 .little
        (memOfList ((serialize 4 .little [0x2A, 0, 0, 0] zeroMem zeroMem).take (1 + 4)
          ++ [0xE5, 0x5E]) zeroMem) = false) :=
  have hgood := isCrcValid_exact 4 (by decide) .little
    (memOfList [0, 0x2A, 0, 0, 0, 0xE5, 0x5F] zeroMem)
  have hbad := isCrcValid_exact 4 (by decide) .little
    (memOfList [0, 0x2A, 0, 0, 0, 0xE5, 0x5E] zeroMem)
  ⟨by decide, by decide,
    ⟨hgood.1, by decide, by decide, hgood.2.1⟩,
    ⟨hbad.1, by decide, by decide, by decide⟩,
    ⟨rfl, by decide, by decide, by decide,
      hbad.2.2 [0x2A, 0, 0, 0] zeroMem zeroMem zeroMem 0xE5 0x5E rfl (by decide)⟩⟩

/-! ## Receiver -/

theorem drain_nil (idx : Nat) (buf : Mem) : drain [] idx buf = buf := rfl

theorem drain_cons (b : Byte) (rest : List Byte) (idx : Nat) (buf : Mem) :
    drain (b :: rest) idx buf = drain rest ((idx + 1) % 2 ^ 8) (Function.update buf idx b) := rfl

/-- While the 8-bit index does not wrap, the drain loop stores input byte `j` at offset
`idx + j` and leaves every other offset alone. -/
theorem drain_spec (rx : List Byte) (idx : Nat) (buf : Mem) (h : idx + rx.length ≤ 2 ^ 8) :
    (∀ j (hj : j < rx.length), drain rx idx buf (idx + j) = rx.get ⟨j, hj⟩) ∧
    (∀ i, (i < idx ∨ idx + rx.length ≤ i) → drain rx idx buf i = buf i) := by
  induction rx generalizing idx buf with
  | nil =>
    constructor
    · intro j hj
      exact absurd hj (Nat.not_lt_zero j)
    · intro i _
      rfl
  | cons b rest ih =>
    rw [drain_cons]
    cases rest with
    | nil =>
      constructor
      · intro j hj
        have hj0 : j = 0 := by
          simp only [List.length_singleton] at hj
          omega
        subst hj0
        simp [drain_nil]
      · intro i hi
        simp only [List.length_singleton] at hi
        rw [drain_nil, Function.update_noteq (by omega)]
    | cons c rest2 =>
      simp only [List.length_cons] at h
      have hm : (idx + 1) % 2 ^ 8 = idx + 1 := Nat.mod_eq_of_lt (by omega)
      rw [hm]
      have ih2 := ih (idx + 1) (Function.update buf idx b)
        (by simp only [List.length_cons]; omega)
      constructor
      · intro j hj
        cases j with
        | zero =>
          show drain (c :: rest2) (idx + 1) (Function.update buf idx b) idx = b
          rw [ih2.2 idx (Or.inl (by omega))]
          simp
        | succ j =>
          have := ih2.1 j (by simp only [List.length_cons] at hj ⊢; omega)
          rw [show idx + (j + 1) = idx + 1 + j by omega, this]
          rfl
      · intro i hi
        simp only [List.length_cons] at hi
        rw [ih2.2 i (by simp only [List.length_cons]; omega),
          Function.update_noteq (by omega)]

theorem readBytes_drain (rx : List Byte) (fresh : Mem) (h : rx.length ≤ 2 ^ 8) :
    readBytes (drain rx 0 fresh) 0 rx.length = rx := by
  apply readBytes_eq_of_get
  intro i hi
  have := (drain_spec rx 0 fresh (by omega)).1 i hi
  exact this

theorem readBytes_eq_iff (m m2 : Mem) (off n : Nat) :
    readBytes m off n = readBytes m2 off n ↔ ∀ i, i < n → m (off + i) = m2 (off + i) := by
  constructor
  · intro h i hi
    have h1 : i < (readBytes m off n).length := by simpa using hi
    have h2 : i < (readBytes m2 off n).length := by simpa using hi
    have : (readBytes m off n)[i] = (readBytes m2 off n)[i] := by simp only [h]
    rwa [readBytes_getElem, readBytes_getElem] at this
  · exact readBytes_congr

/-- The checks made by `receive` depend only on the first `packetSize` bytes of the buffer. -/
theorem frame_congr {N : Nat} (hN : N + 3 < 2 ^ 16) (e : Endian) (m m2 : Mem)
    (h : readBytes m 0 (N + 3) = readBytes m2 0 (N + 3)) :
    m 0 = m2 0 ∧ bufferToData N m = bufferToData N m2 ∧ isCrcValid N e m = isCrcValid N e m2 := by
  have hp := (readBytes_eq_iff m m2 0 (N + 3)).mp h
  have hp2 : ∀ i, i < N + 3 → m i = m2 i := by
    intro i hi
    have := hp i hi
    rwa [Nat.zero_add] at this
  refine ⟨hp2 0 (by omega), ?_, ?_⟩
  · unfold bufferToData
    rw [dataSize_eq hN, TYPE_SIZE]
    exact readBytes_congr (fun i hi => hp2 (1 + i) (by omega))
  · have hpre : readBytes m 0 (N + 1) = readBytes m2 0 (N + 1) :=
      readBytes_congr (fun i hi => hp i (by omega))
    unfold isCrcValid xmodem
    simp only [dataSize_eq hN, TYPE_SIZE]
    rw [hpre, hp2 (N + 1) (by omega), hp2 (N + 1 + 1) (by omega)]

theorem isCrcValid_frameBuffer {N : Nat} (hN : N + 3 < 2 ^ 16) (e : Endian) (v : List Byte)
    (hv : v.length = N) (behind fresh : Mem) :
    isCrcValid N e (frameBuffer N e v behind fresh) = true := by
  rw [isCrcValid_iff hN, Nat.add_comm 1 N, frameBuffer_crc hN e v hv]
  have hpre : readBytes (frameBuffer N e v behind fresh) 0 (N + 1) = 0 :: v := by
    rw [Nat.add_comm N 1, readBytes_add, readBytes_one, frameBuffer_zero hN, Nat.zero_add]
    have : readBytes (frameBuffer N e v behind fresh) 1 N = v := by
      subst hv
      exact readBytes_eq_of_get (fun i hi => frameBuffer_payload hN e v rfl behind fresh i hi)
    rw [this]
    rfl
  rw [hpre]

/-- What `receive` adds to the callback log. -/
theorem receive_calls (N : Nat) (e : Endian) (ch : Channel) (w : World) (buffer : Mem) :
    (receive N e ch w buffer).calls =
      match ch._receiveCallback with
      | none => w.calls
      | some cb =>
        if buffer 0 = PacketType.DATA.toByte ∧ isCrcValid N e buffer = true then
          w.calls ++ [(cb, bufferToData N buffer)]
        else w.calls := by
  unfold receive
  by_cases h0 : buffer 0 = PacketType.DATA.toByte
  · cases hcb : ch._receiveCallback with
    | none => simp [h0]
    | some cb =>
      by_cases hc : isCrcValid N e buffer = true
      · simp [h0, hc]
      · simp [h0, hc]
  · cases hcb : ch._receiveCallback with
    | none => simp [h0]
    | some cb => simp [h0]

/-- What `receive` leaves alone: the buses and the request log. -/
theorem receive_buses (N : Nat) (e : Endian) (ch : Channel) (w : World) (buffer : Mem) :
    (receive N e ch w buffer).buses = w.buses ∧
    (receive N e ch w buffer).requests = w.requests := by
  unfold receive
  by_cases h0 : buffer 0 = PacketType.DATA.toByte
  · cases hcb : ch._receiveCallback with
    | none => simp [h0]
    | some cb =>
      by_cases hc : isCrcValid N e buffer = true
      · simp [h0, hc]
      · simp [h0, hc]
  · simp [h0]

/-- Unfolding of `loop` on a bound channel with bytes available on the global `Wire`. -/
theorem loop_available (N : Nat) (e : Endian) (ch : Channel) (w : World) (fresh : Mem) (b : Nat)
    (hb : ch._wire = some b) (hrx : (w.buses Wire).rx ≠ []) :
    loop N e ch w fresh =
      ({ ch with _buffer := drain (w.buses Wire).rx 0 fresh },
        receive N e { ch with _buffer := drain (w.buses Wire).rx 0 fresh }
          { w with buses := Function.update w.buses Wire { w.buses Wire with rx := [] } }
          (drain (w.buses Wire).rx 0 fresh)) := by
  unfold loop
  rw [hb]
  have : (w.buses Wire).rx.length ≠ 0 := by
    intro h
    exact hrx (List.length_eq_zero.mp h)
  simp only [this, ne_eq, not_false_eq_true, if_true]

/-- With nothing available on the global `Wire`, `loop` does nothing. -/
theorem loop_idle (N : Nat) (e : Endian) (ch : Channel) (w : World) (fresh : Mem)
    (hrx : (w.buses Wire).rx = []) : loop N e ch w fresh = (ch, w) := by
  unfold loop
  cases ch._wire with
  | none => rfl
  | some b => simp [hrx]

/-- Delivery through the global `Wire` for frames of at most 256 bytes: when the bytes
available on `Wire` are the frame of `v`, one `loop` call on a bound channel with a receive
callback invokes that callback exactly once, with `v`. -/
theorem loop_delivers {N : Nat} (hN : N + 3 ≤ 2 ^ 8) (e : Endian) (ch : Channel) (w : World)
    (fresh : Mem) (b cb : Nat) (hb : ch._wire = some b) (hcb : ch._receiveCallback = some cb)
    (v : List Byte) (hv : v.length = N) (behind fresh0 : Mem)
    (hrx : (w.buses Wire).rx = serialize N e v behind fresh0) :
    (loop N e ch w fresh).2.calls = w.calls ++ [(cb, v)] := by
  have hN2 : N + 3 < 2 ^ 16 := by omega
  have hlen : (serialize N e v behind fresh0).length = N + 3 := by
    unfold serialize
    rw [readBytes_length, packetSize_eq hN2]
  have hne : (w.buses Wire).rx ≠ [] := by
    intro h
    rw [hrx] at h
    rw [h] at hlen
    simp at hlen
  rw [loop_available N e ch w fresh b hb hne, receive_calls]
  simp only [hcb, hrx]
  have hread : readBytes (drain (serialize N e v behind fresh0) 0 fresh) 0 (N + 3)
      = readBytes (frameBuffer N e v behind fresh0) 0 (N + 3) := by
    have := readBytes_drain (serialize N e v behind fresh0) fresh (by omega)
    rw [hlen] at this
    rw [this]
    unfold serialize
    rw [packetSize_eq hN2]
  obtain ⟨h0, h1, h2⟩ := frame_congr hN2 e _ _ hread
  rw [h0, h1, h2, frameBuffer_zero hN2, bufferToData_frameBuffer hN2 e v hv,
    isCrcValid_frameBuffer hN2 e v hv]
  simp [PacketType.toByte]

/-! ## End-to-end delivery -/

theorem drain_append (a b : List Byte) (idx : Nat) (buf : Mem) (h : idx < 2 ^ 8) :
    drain (a ++ b) idx buf = drain b ((idx + a.length) % 2 ^ 8) (drain a idx buf) := by
  induction a generalizing idx buf with
  | nil =>
    rw [List.nil_append, drain_nil, List.length_nil, Nat.add_zero, Nat.mod_eq_of_lt h]
  | cons x a ih =>
    have hidx : ((idx + 1) % 2 ^ 8 + a.length) % 2 ^ 8 = (idx + (a.length + 1)) % 2 ^ 8 := by
      omega
    rw [List.cons_append, drain_cons, drain_cons,
      ih ((idx + 1) % 2 ^ 8) _ (Nat.mod_lt _ (by norm_num)), List.length_cons, hidx]

/-- After 256 stored bytes the 8-bit index is back at `0`: byte number 256 of the input lands
on offset `0`. -/
theorem drain_wrap (rx : List Byte) (c : Byte) (fresh : Mem) (h : rx.length = 2 ^ 8) :
    drain (rx ++ [c]) 0 fresh 0 = c := by
  rw [drain_append rx [c] 0 fresh (by norm_num), h, Nat.zero_add, Nat.mod_self, drain_cons,
    drain_nil]
  simp

theorem foldl_upd_zeros (n : Nat) : (List.replicate n (0 : Byte)).foldl xmodem_upd 0 = 0 := by
  induction n with
  | zero => rfl
  | succ n ih =>
    rw [List.replicate_succ, List.foldl_cons]
    have h0 : xmodem_upd 0 0 = 0 := by decide
    rw [h0]
    exact ih

/-- The frame of the 254-byte payload `00 ... 00 01`: tag and zeros, the `01`, then the CRC
`0x1021` as a little-endian `uint16_t`. -/
theorem serialize_254 (behind fresh : Mem) :
    serialize 254 .little (List.replicate 253 0 ++ [1]) behind fresh
      = (List.replicate 254 0 ++ [1, 0x21]) ++ [0x10] := by
  rw [serialize_eq (by norm_num) .little _ (by simp) behind fresh]
  have hcrc : xmodemOf (0 :: (List.replicate 253 0 ++ [1])) = 0x1021 := by
    have : (0 : Byte) :: (List.replicate 253 0 ++ [1]) = List.replicate 254 0 ++ [1] := by
      rw [show 254 = 253 + 1 by norm_num, List.replicate_succ]
      rfl
    rw [this]
    unfold xmodemOf
    rw [List.foldl_append, foldl_upd_zeros]
    decide
  rw [hcrc]
  have : (0 : Byte) :: (List.replicate 253 0 ++ [1]) = List.replicate 254 0 ++ [1] := by
    rw [show 254 = 253 + 1 by norm_num, List.replicate_succ]
    rfl
  rw [this]
  have hu : u16Bytes .little 0x1021 = [0x21, 0x10] := by decide
  rw [hu]
  simp

/-- C1 (failing inputs): a channel bound to a second bus (`begin(&Wire1)`) with a receive
callback registered never sees the frame of 42 that is available on that bus, because `loop`
polls the global `Wire`; and on a channel bound to `Wire` itself the 257-byte frame of the
254-byte payload `00 ... 00 01` is not delivered, because the 8-bit `bufferIndex` wraps and
the last frame byte overwrites the tag.  In both cases the callback log stays empty. -/
theorem loop_misses_frame :
    (boundChannel 1 (some 7))._wire = some 1 ∧
    (loop 4 .little (boundChannel 1 (some 7))
      (sampleWorld [] (serialize 4 .little (intBytes .little 4 42) zeroMem zeroMem))
      zeroMem).2.calls = [] ∧
    (loop 254 .little (boundChannel 0 (some 7))
      (sampleWorld (serialize 254 .little (List.replicate 253 0 ++ [1]) zeroMem zeroMem) [])
      zeroMem).2.calls = [] := by
  refine ⟨rfl, by decide, ?_⟩
  rw [serialize_254]
  rw [loop_available 254 .little _ _ zeroMem 0 rfl (by simp [sampleWorld, Wire]), receive_calls]
  have hrx : ((sampleWorld (List.replicate 254 0 ++ [1, 0x21] ++ [0x10]) []).buses Wire).rx
      = (List.replicate 254 0 ++ [1, 0x21]) ++ [0x10] := rfl
  have htag : drain ((List.replicate 254 0 ++ [1, 0x21]) ++ [0x10]) 0 zeroMem 0 = 0x10 :=
    drain_wrap _ _ _ (by simp)
  simp only [hrx, htag]
  have hne : ¬ ((0x10 : Byte) = PacketType.DATA.toByte) := by decide
  simp [hne, boundChannel, sampleWorld]

/-! ## Rejected input -/

/-- The callback log after one `loop` call: at most one invocation is added, and only for a
bound channel with a callback, bytes available on the global `Wire`, a `DATA` tag and a
matching CRC in the drained buffer. -/
theorem loop_calls (N : Nat) (e : Endian) (ch : Channel) (w : World) (fresh : Mem) :
    (loop N e ch w fresh).2.calls =
      match ch._wire, ch._receiveCallback with
      | some _, some cb =>
        if (w.buses Wire).rx ≠ [] ∧
            drain (w.buses Wire).rx 0 fresh 0 = PacketType.DATA.toByte ∧
            isCrcValid N e (drain (w.buses Wire).rx 0 fresh) = true then
          w.calls ++ [(cb, bufferToData N (drain (w.buses Wire).rx 0 fresh))]
        else w.calls
      | _, _ => w.calls := by
  cases hw : ch._wire with
  | none =>
    unfold loop
    rw [hw]
  | some b =>
    by_cases hrx : (w.buses Wire).rx = []
    · rw [loop_idle N e ch w fresh hrx]
      cases hcb : ch._receiveCallback <;> simp [hrx]
    · rw [loop_available N e ch w fresh b hw hrx, receive_calls]
      cases hcb : ch._receiveCallback <;> simp [hrx]

/-- One `loop` call changes no data member except `_buffer`, performs no operation on any
bus, and invokes no request callback. -/
theorem loop_frame (N : Nat) (e : Endian) (ch : Channel) (w : World) (fresh : Mem) :
    (loop N e ch w fresh).1._wire = ch._wire ∧
    (loop N e ch w fresh).1._address = ch._address ∧
    (loop N e ch w fresh).1._receiveCallback = ch._receiveCallback ∧
    (loop N e ch w fresh).1._requestCallback = ch._requestCallback ∧
    (∀ b, ((loop N e ch w fresh).2.buses b).ops = (w.buses b).ops) ∧
    (loop N e ch w fresh).2.requests = w.requests := by
  cases hw : ch._wire with
  | none =>
    unfold loop
    rw [hw]
    simp [hw]
  | some b =>
    by_cases hrx : (w.buses Wire).rx = []
    · rw [loop_idle N e ch w fresh hrx]
      simp [hw]
    · rw [loop_available N e ch w fresh b hw hrx]
      have hb := receive_buses N e { ch with _buffer := drain (w.buses Wire).rx 0 fresh }
        { w with buses := Function.update w.buses Wire { w.buses Wire with rx := [] } }
        (drain (w.buses Wire).rx 0 fresh)
      refine ⟨hw, rfl, rfl, rfl, ?_, hb.2⟩
      intro b2
      simp only [hb.1]
      by_cases h2 : b2 = Wire
      · subst h2
        simp
      · rw [Function.update_noteq h2]

/-- C7 (corrupted data is never delivered): `receive` adds nothing to the callback log for a
buffer with the `DATA` tag whose CRC check fails, and so does `loop` when the buffer it drained
is such a buffer; in particular, when the bytes available are the frame of the 4-byte integer
42 with one of its four payload bytes replaced by a different byte, `loop` invokes no
callback. -/
theorem corrupted_not_delivered (N : Nat) (e : Endian) (ch : Channel) (w : World) :
    (∀ buffer : Mem, buffer 0 = PacketType.DATA.toByte → isCrcValid N e buffer = false →
      (receive N e ch w buffer).calls = w.calls) ∧
    (∀ fresh : Mem, drain (w.buses Wire).rx 0 fresh 0 = PacketType.DATA.toByte →
      isCrcValid N e (drain (w.buses Wire).rx 0 fresh) = false →
      (loop N e ch w fresh).2.calls = w.calls) ∧
    (∀ (behind fresh0 fresh : Mem) (i : Nat) (b : Byte), 1 ≤ i → i < 5 →
      b ≠ (serialize 4 e (intBytes e 4 42) behind fresh0).getD i 0 →
      (w.buses Wire).rx = (serialize 4 e (intBytes e 4 42) behind fresh0).set i b →
      (loop 4 e ch w fresh).2.calls = w.calls) := by
  refine ⟨?_, ?_, ?_⟩
  · intro buffer _ hcrc
    rw [receive_calls]
    cases ch._receiveCallback <;> simp [hcrc]
  · intro fresh _ hcrc
    rw [loop_calls]
    cases ch._wire <;> cases ch._receiveCallback <;> simp [hcrc]
  · intro behind fresh0 fresh i b _ hi hb hrx
    have hv : (intBytes e 4 42).length = 4 := by cases e <;> rfl
    have hdet := byte_change_detected (N := 4) (by norm_num) e _ hv behind fresh0 zeroMem i
      (by omega) b hb
    have hlen : ((serialize 4 e (intBytes e 4 42) behind fresh0).set i b).length = 4 + 3 := by
      rw [List.length_set]
      unfold serialize
      rw [readBytes_length, packetSize_eq (by norm_num)]
    have hread : readBytes (drain (w.buses Wire).rx 0 fresh) 0 (4 + 3)
        = readBytes (memOfList ((serialize 4 e (intBytes e 4 42) behind fresh0).set i b)
            zeroMem) 0 (4 + 3) := by
      rw [hrx]
      have h1 := readBytes_drain _ fresh (show ((serialize 4 e (intBytes e 4 42) behind
        fresh0).set i b).length ≤ 2 ^ 8 by rw [hlen]; norm_num)
      have h2 := readBytes_memOfList ((serialize 4 e (intBytes e 4 42) behind fresh0).set i b)
        zeroMem
      rw [hlen] at h1 h2
      rw [h1, h2]
    have hc := (frame_congr (N := 4) (by norm_num) e _ _ hread).2.2
    rw [hdet] at hc
    rw [loop_calls]
    cases ch._wire <;> cases ch._receiveCallback <;> simp [hc]

/-- Witness for C7: the frame of 42 with its first payload byte changed from `2A` to `2B`,
available on `Wire` for a bound channel with callback `7`. -/
theorem corrupted_not_delivered_witness :
    memOfList [0, 0x2B, 0, 0, 0, 0xE5, 0x5F] zeroMem 0 = PacketType.DATA.toByte ∧
    isCrcValid 4 .little (memOfList [0, 0x2B, 0, 0, 0, 0xE5, 0x5F] zeroMem) = false ∧
    (receive 4 .little (boundChannel 0 (some 7)) (sampleWorld [] [])
      (memOfList [0, 0x2B, 0, 0, 0, 0xE5, 0x5F] zeroMem)).calls = [] ∧
    (loop 4 .little (boundChannel 0 (some 7))
      (sampleWorld [0, 0x2B, 0, 0, 0, 0xE5, 0x5F] []) zeroMem).2.calls = [] :=
  ⟨by decide, by decide,
    (corrupted_not_delivered 4 .little (boundChannel 0 (some 7)) (sampleWorld [] [])).1
      (memOfList [0, 0x2B, 0, 0, 0, 0xE5, 0x5F] zeroMem) (by decide) (by decide),
    (corrupted_not_delivered 4 .little (boundChannel 0 (some 7))
      (sampleWorld [0, 0x2B, 0, 0, 0, 0xE5, 0x5F] [])).2.2 zeroMem zeroMem zeroMem 1 0x2B
      (by decide) (by decide) (by decide) (by decide)⟩

/-- C8 (failing input): with a 4-byte payload type (frame size 7), a single available byte
`00` and a new buffer that happens to hold zeros, `loop` stores only offset `0`, yet `receive`
reads offsets `1` to `6`, which were never filled, finds tag `DATA` and a matching CRC in
them, and invokes the callback with the payload `00 00 00 00`. -/
theorem short_input_delivered :
    ([0] : List Byte).length < packetSize 4 ∧
    drainWrites ([0] : List Byte).length 0 = [0] ∧
    receiveReads 4 (boundChannel 0 (some 7)) (drain [0] 0 zeroMem)
      = [0, 1, 2, 3, 4, 0, 1, 2, 3, 4, 5, 6] ∧
    (loop 4 .little (boundChannel 0 (some 7)) (sampleWorld [0] []) zeroMem).2.calls
      = [(7, [0, 0, 0, 0])] := by
  refine ⟨by decide, by decide, by decide, by decide⟩

/-- C9 (non-Data frames are not dispatched): for every buffer whose first byte is not the
`DATA` tag `0`, whatever its CRC and whether or not a callback is registered, `receive` only
prints the tag: the callback log, the request log and every bus are unchanged, and the only
buffer offset read is `0`. -/
theorem non_data_not_dispatched (N : Nat) (e : Endian) (ch : Channel) (w : World) (buffer : Mem)
    (h : buffer 0 ≠ PacketType.DATA.toByte) :
    receive N e ch w buffer = { w with serial := w.serial ++ [[buffer 0]] } ∧
    (receive N e ch w buffer).calls = w.calls ∧
    (receive N e ch w buffer).requests = w.requests ∧
    (receive N e ch w buffer).buses = w.buses ∧
    receiveReads N ch buffer = [0] := by
  have h1 : receive N e ch w buffer = { w with serial := w.serial ++ [[buffer 0]] } := by
    unfold receive
    simp [h]
  refine ⟨h1, ?_, ?_, ?_, ?_⟩
  · rw [h1]
  · rw [h1]
  · rw [h1]
  · unfold receiveReads
    simp [h]

/-- Witness for C9: an `ACK`-tagged buffer with a matching CRC and a callback registered. -/
theorem non_data_not_dispatched_witness :
    memOfList [1, 0x2A, 0, 0, 0, 0xB4, 0xF5] zeroMem 0 ≠ PacketType.DATA.toByte ∧
    isCrcValid 4 .little (memOfList [1, 0x2A, 0, 0, 0, 0xB4, 0xF5] zeroMem) = true ∧
    (receive 4 .little (boundChannel 0 (some 7)) (sampleWorld [] [])
      (memOfList [1, 0x2A, 0, 0, 0, 0xB4, 0xF5] zeroMem)).calls = [] ∧
    receiveReads 4 (boundChannel 0 (some 7))
      (memOfList [1, 0x2A, 0, 0, 0, 0xB4, 0xF5] zeroMem) = [0] :=
  have h := non_data_not_dispatched 4 .little (boundChannel 0 (some 7)) (sampleWorld [] [])
    (memOfList [1, 0x2A, 0, 0, 0, 0xB4, 0xF5] zeroMem) (by decide)
  ⟨by decide, by decide, h.2.1, h.2.2.2.2⟩

/-! ## Channels without a handler -/

/-- The drain loop changes no offset outside the ones listed by `drainWrites`. -/
theorem drain_untouched (rx : List Byte) (idx : Nat) (buf : Mem) (i : Nat)
    (h : i ∉ drainWrites rx.length idx) : drain rx idx buf i = buf i := by
  induction rx generalizing idx buf with
  | nil => rfl
  | cons b rest ih =>
    simp only [List.length_cons, drainWrites, List.mem_cons, not_or] at h
    rw [drain_cons, ih _ _ h.2, Function.update_noteq h.1]

/-- On a channel whose callback slot is null, one `loop` call invokes nothing, performs no bus
operation and changes no data member other than `_buffer`. -/
theorem no_handler_drop (N : Nat) (e : Endian) (ch : Channel) (w : World) (fresh : Mem)
    (hcb : ch._receiveCallback = none) :
    (loop N e ch w fresh).2.calls = w.calls ∧
    (∀ b, ((loop N e ch w fresh).2.buses b).ops = (w.buses b).ops) ∧
    (loop N e ch w fresh).1._wire = ch._wire ∧
    (loop N e ch w fresh).1._address = ch._address ∧
    (loop N e ch w fresh).1._receiveCallback = none ∧
    (loop N e ch w fresh).1._requestCallback = ch._requestCallback := by
  have hf := loop_frame N e ch w fresh
  refine ⟨?_, hf.2.2.2.2.1, hf.1, hf.2.1, hf.2.2.1.trans hcb, hf.2.2.2.1⟩
  rw [loop_calls, hcb]
  cases ch._wire <;> rfl

/-- For frames of at most 256 bytes polled from the global `Wire`: after a frame was dropped
for want of a callback and a callback was then registered, the next frame is delivered. -/
theorem no_handler_then_registered {N : Nat} (hN : N + 3 ≤ 2 ^ 8) (e : Endian) (ch : Channel)
    (w : World) (fresh : Mem) (b cb : Nat) (hb : ch._wire = some b) (w2 : World) (fresh2 : Mem)
    (v : List Byte) (hv : v.length = N) (behind fresh0 : Mem)
    (hrx : (w2.buses Wire).rx = serialize N e v behind fresh0) :
    (loop N e (onReceive (loop N e ch w fresh).1 (some cb)) w2 fresh2).2.calls
      = w2.calls ++ [(cb, v)] := by
  have hw : (onReceive (loop N e ch w fresh).1 (some cb))._wire = some b :=
    (loop_frame N e ch w fresh).1.trans hb
  exact loop_delivers hN e (onReceive (loop N e ch w fresh).1 (some cb)) w2 fresh2 b cb hw rfl
    v hv behind fresh0 hrx

/-- The 257-byte frame of the payload `00 ... 00 01` is never delivered: its last byte lands
on offset `0` and replaces the tag. -/
theorem loop_wrap_254 (ch : Channel) (w : World) (fresh : Mem)
    (hrx : (w.buses Wire).rx = (List.replicate 254 0 ++ [1, 0x21]) ++ [0x10]) :
    (loop 254 .little ch w fresh).2.calls = w.calls := by
  have htag : drain ((List.replicate 254 0 ++ [1, 0x21]) ++ [0x10]) 0 fresh 0 = 0x10 :=
    drain_wrap _ _ _ (by simp)
  have hne : ¬ ((0x10 : Byte) = PacketType.DATA.toByte) := by decide
  rw [loop_calls, hrx, htag]
  cases ch._wire <;> cases ch._receiveCallback <;> simp [hne]

/-- C10 (failing inputs): the frame that follows the registration is not delivered (a) on a
channel bound to a second bus, where both frames of 42 arrive, because `loop` polls the global
`Wire`; (b) on a channel bound to `Wire` for the 257-byte frame of a 254-byte payload, because
the 8-bit `bufferIndex` wraps.  (c) For a channel object on which `onReceive` was never called
and whose uninitialized callback slot is not null, `loop` calls through that slot. -/
theorem no_handler_not_ready :
    (loop 4 .little
      (onReceive (loop 4 .little (boundChannel 1 none)
        (sampleWorld [] (serialize 4 .little (intBytes .little 4 42) zeroMem zeroMem))
        zeroMem).1 (some 7))
      (sampleWorld [] (serialize 4 .little (intBytes .little 4 42) zeroMem zeroMem))
      zeroMem).2.calls = [] ∧
    (loop 254 .little
      (onReceive (loop 254 .little (boundChannel 0 none)
        (sampleWorld (serialize 254 .little (List.replicate 253 0 ++ [1]) zeroMem zeroMem) [])
        zeroMem).1 (some 7))
      (sampleWorld (serialize 254 .little (List.replicate 253 0 ++ [1]) zeroMem zeroMem) [])
      zeroMem).2.calls = [] ∧
    (loop 4 .little
      (begin true (construct (some 99) none 0 zeroMem)
        (sampleWorld (serialize 4 .little (intBytes .little 4 42) zeroMem zeroMem) []) Wire).1
      (sampleWorld (serialize 4 .little (intBytes .little 4 42) zeroMem zeroMem) [])
      zeroMem).2.calls = [(99, [0x2A, 0, 0, 0])] := by
  refine ⟨by decide, ?_, by decide⟩
  rw [serialize_254]
  exact loop_wrap_254 _ _ _ rfl

/-! ## Unbound channels and controller sends -/

/-- C11 (unbound channel): on a channel whose bus pointer is still the null pointer of its
initializer, `loop()`, `sendToMaster(v)`, `sendToSlave(address, v)` and `sendToSlave(v)` each
return with the channel and the whole outside world unchanged, so no bus is read or written,
no transmission begins or ends and no callback runs; the constructor leaves the pointer null
and `setAddress`, `onReceive` and `onRequest` keep it null. -/
theorem unbound_noop (N : Nat) (e : Endian) (ch : Channel) (w : World) (h : ch._wire = none)
    (address : Byte) (data behind1 behind fresh : Mem) :
    loop N e ch w fresh = (ch, w) ∧
    sendToMaster N e ch w data fresh = (ch, w) ∧
    sendToSlave N e ch w address data behind fresh = (ch, w) ∧
    sendToSlaveDefault N e ch w data behind1 behind fresh = (ch, w) ∧
    (∀ rc rq a buf, (construct rc rq a buf)._wire = none) ∧
    (∀ a, (setAddress ch a)._wire = none) ∧
    (∀ cb, (onReceive ch cb)._wire = none) ∧
    (∀ cb, (onRequest ch cb)._wire = none) := by
  refine ⟨?_, ?_, ?_, ?_, fun _ _ _ _ => rfl, fun _ => h, fun _ => h, fun _ => h⟩
  · unfold loop
    rw [h]
  · unfold sendToMaster
    rw [h]
  · unfold sendToSlave
    rw [h]
  · unfold sendToSlaveDefault sendToSlave
    rw [h]

/-- Witness for C11: a newly constructed channel with a callback and an address set, and
frames waiting on both buses. -/
theorem unbound_noop_witness :
    (setAddress (onReceive (construct none none 0 zeroMem) (some 7)) 9)._wire = none ∧
    loop 4 .little (setAddress (onReceive (construct none none 0 zeroMem) (some 7)) 9)
      (sampleWorld [0, 0x2A, 0, 0, 0, 0xE5, 0x5F] [0, 0x2A, 0, 0, 0, 0xE5, 0x5F]) zeroMem
      = (setAddress (onReceive (construct none none 0 zeroMem) (some 7)) 9,
          sampleWorld [0, 0x2A, 0, 0, 0, 0xE5, 0x5F] [0, 0x2A, 0, 0, 0, 0xE5, 0x5F]) ∧
    sendToSlave 4 .little (setAddress (onReceive (construct none none 0 zeroMem) (some 7)) 9)
      (sampleWorld [] []) 5 (objectMem [0x2A, 0, 0, 0] zeroMem) zeroMem zeroMem
      = (setAddress (onReceive (construct none none 0 zeroMem) (some 7)) 9,
          sampleWorld [] []) :=
  have h := unbound_noop 4 .little
    (setAddress (onReceive (construct none none 0 zeroMem) (some 7)) 9)
    (sampleWorld [0, 0x2A, 0, 0, 0, 0xE5, 0x5F] [0, 0x2A, 0, 0, 0, 0xE5, 0x5F]) rfl 5
    (objectMem [0x2A, 0, 0, 0] zeroMem) zeroMem zeroMem zeroMem
  have h2 := unbound_noop 4 .little
    (setAddress (onReceive (construct none none 0 zeroMem) (some 7)) 9)
    (sampleWorld [] []) rfl 5 (objectMem [0x2A, 0, 0, 0] zeroMem) zeroMem zeroMem zeroMem
  ⟨rfl, h.1, h2.2.2.1⟩

theorem busOp_ops (w : World) (b : Nat) (op : BusOp) (b2 : Nat) :
    ((w.busOp b op).buses b2).ops
      = if b2 = b then (w.buses b).ops ++ [op] else (w.buses b2).ops := by
  unfold World.busOp
  by_cases hb : b2 = b
  · subst hb
    simp
  · simp [hb, Function.update_noteq hb]

theorem busOp_rx (w : World) (b : Nat) (op : BusOp) (b2 : Nat) :
    ((w.busOp b op).buses b2).rx = (w.buses b2).rx := by
  unfold World.busOp
  by_cases hb : b2 = b
  · subst hb
    simp
  · simp [hb, Function.update_noteq hb]

theorem busOp_logs (w : World) (b : Nat) (op : BusOp) :
    (w.busOp b op).calls = w.calls ∧ (w.busOp b op).requests = w.requests ∧
    (w.busOp b op).serial = w.serial := ⟨rfl, rfl, rfl⟩

/-- On a bound channel `sendToSlave(address, v)` is the three bus operations in order. -/
theorem sendToSlave_bound (N : Nat) (e : Endian) (ch : Channel) (w : World) (b : Nat)
    (hb : ch._wire = some b) (address : Byte) (v : List Byte) (hv : v.length = N)
    (behind0 behind fresh : Mem) :
    (sendToSlave N e ch w address (objectMem v behind0) behind fresh).2
      = ((w.busOp b (.beginTransmission address)).busOp b
          (.write (serialize N e v behind fresh))).busOp b .endTransmission := by
  have hcopy : readBytes (objectMem v behind0) 0 N = v := by
    rw [← hv]
    exact readBytes_objectMem v behind0
  unfold sendToSlave
  rw [hb]
  simp only [hcopy]
  rw [sendToMaster_bound N e ch _ b hb]
  rfl

/-- C12 (controller send): on a channel bound to bus `b`, `sendToSlave(a, v)` performs on bus
`b` exactly `beginTransmission(a)`, one `write` of the `packetSize`-byte Data frame of `v`
(tag `0`, the bytes of `v`, the CRC object bytes) and `endTransmission()`, in that order, and
changes nothing else outside the channel; and after `setAddress(c)` the overload
`sendToSlave(v)` does exactly what `sendToSlave(c, v)` does. -/
theorem sendToSlave_ops (N : Nat) (hN : N + 3 < 2 ^ 16) (e : Endian) (ch : Channel) (w : World)
    (b : Nat) (hb : ch._wire = some b) (a c : Byte) (v : List Byte) (hv : v.length = N)
    (behind0 behind1 behind fresh : Mem) :
    (sendToSlave N e ch w a (objectMem v behind0) behind fresh).2
      = ((w.busOp b (.beginTransmission a)).busOp b
          (.write (serialize N e v behind fresh))).busOp b .endTransmission ∧
    ((sendToSlave N e ch w a (objectMem v behind0) behind fresh).2.buses b).ops
      = (w.buses b).ops ++
          [.beginTransmission a, .write (serialize N e v behind fresh), .endTransmission] ∧
    (∀ b2, b2 ≠ b →
      ((sendToSlave N e ch w a (objectMem v behind0) behind fresh).2.buses b2).ops
        = (w.buses b2).ops) ∧
    (∀ b2, ((sendToSlave N e ch w a (objectMem v behind0) behind fresh).2.buses b2).rx
        = (w.buses b2).rx) ∧
    (sendToSlave N e ch w a (objectMem v behind0) behind fresh).2.calls = w.calls ∧
    (sendToSlave N e ch w a (objectMem v behind0) behind fresh).2.requests = w.requests ∧
    (serialize N e v behind fresh).length = packetSize N ∧
    serialize N e v behind fresh = 0 :: v ++ u16Bytes e (xmodemOf (0 :: v)) ∧
    sendToSlaveDefault N e (setAddress ch c) w (objectMem v behind0) behind1 behind fresh
      = sendToSlave N e (setAddress ch c) w c (objectMem v behind0) behind fresh := by
  have hw := sendToSlave_bound N e ch w b hb a v hv behind0 behind fresh
  refine ⟨hw, ?_, ?_, ?_, ?_, ?_, ?_, serialize_eq hN e v hv behind fresh, ?_⟩
  · rw [hw]
    simp [busOp_ops]
  · intro b2 h2
    rw [hw]
    simp [busOp_ops, h2]
  · intro b2
    rw [hw]
    simp [busOp_rx]
  · rw [hw]
    rfl
  · rw [hw]
    rfl
  · unfold serialize
    rw [readBytes_length]
  · have hcopy : readBytes (objectMem v behind0) 0 N = v := by
      rw [← hv]
      exact readBytes_objectMem v behind0
    have hcopy1 : readBytes (objectMem v behind1) 0 N = v := by
      rw [← hv]
      exact readBytes_objectMem v behind1
    unfold sendToSlaveDefault sendToSlave
    simp only [hcopy, hcopy1]
    rfl

/-- Witness for C12: a channel bound to bus `1` sending the 4-byte payload `2A 00 00 00` to
address `9`. -/
theorem sendToSlave_ops_witness :
    4 + 3 < 2 ^ 16 ∧ (boundChannel 1 none)._wire = some 1 ∧
    ([0x2A, 0, 0, 0] : List Byte).length = 4 ∧
    ((sendToSlave 4 .little (boundChannel 1 none) (sampleWorld [] []) 9
        (objectMem [0x2A, 0, 0, 0] zeroMem) zeroMem zeroMem).2.buses 1).ops
      = ((sampleWorld [] []).buses 1).ops ++
          [.beginTransmission 9, .write (serialize 4 .little [0x2A, 0, 0, 0] zeroMem zeroMem),
            .endTransmission] ∧
    sendToSlaveDefault 4 .little (setAddress (boundChannel 1 none) 9) (sampleWorld [] [])
        (objectMem [0x2A, 0, 0, 0] zeroMem) zeroMem zeroMem zeroMem
      = sendToSlave 4 .little (setAddress (boundChannel 1 none) 9) (sampleWorld [] []) 9
        (objectMem [0x2A, 0, 0, 0] zeroMem) zeroMem zeroMem :=
  have h := sendToSlave_ops 4 (by decide) .little (boundChannel 1 none) (sampleWorld [] []) 1
    rfl 9 9 [0x2A, 0, 0, 0] rfl zeroMem zeroMem zeroMem zeroMem
  ⟨by decide, rfl, rfl, h.2.1, h.2.2.2.2.2.2.2.2⟩

/-! ## The request path and callback registration -/

/-- Without a request callback `request()` returns at once: nothing is invoked or written. -/
theorem request_no_callback (ch : Channel) (w : World) (result : List Byte)
    (h : ch._requestCallback = none) : request ch w result = some (ch, w) := by
  unfold request
  rw [h]

/-- With a request callback registered the body of `request()` reaches `this->write(data)`,
which names no member: the call has no meaning. -/
theorem request_with_callback (ch : Channel) (w : World) (result : List Byte) (cb : Nat)
    (h : ch._requestCallback = some cb) : request ch w result = none := by
  unfold request
  rw [h]
  rfl

/-- C13 (failing input): for a channel bound to `Wire` whose request callback returns the
4-byte integer 42, `request()` does not yield the state that `sendToMaster(42)` yields after
the callback ran once: its body calls `this->write(data)`, a member the class does not have,
so it yields no state at all. -/
theorem request_writes_no_frame :
    (onRequest (boundChannel 0 none) (some 3))._wire = some 0 ∧
    request (onRequest (boundChannel 0 none) (some 3)) (sampleWorld [] [])
      (intBytes .little 4 42) = none ∧
    request (onRequest (boundChannel 0 none) (some 3)) (sampleWorld [] [])
      (intBytes .little 4 42)
      ≠ some (sendToMaster 4 .little (onRequest (boundChannel 0 none) (some 3))
          { sampleWorld [] [] with requests := (sampleWorld [] []).requests ++ [3] }
          (objectMem (intBytes .little 4 42) zeroMem) zeroMem) := by
  refine ⟨rfl, rfl, ?_⟩
  intro h
  have h2 : request (onRequest (boundChannel 0 none) (some 3)) (sampleWorld [] [])
      (intBytes .little 4 42) = none := rfl
  rw [h2] at h
  exact Option.noConfusion h

/-- The receive callback installed last is the one that receives a frame of at most 256 bytes
polled from the global `Wire`: it is invoked exactly once, and the callback installed before
it is not invoked. -/
theorem onReceive_replaces {N : Nat} (hN : N + 3 ≤ 2 ^ 8) (e : Endian) (ch : Channel)
    (w : World) (fresh : Mem) (bus a b : Nat) (hb : ch._wire = some bus) (v : List Byte)
    (hv : v.length = N) (behind fresh0 : Mem)
    (hrx : (w.buses Wire).rx = serialize N e v behind fresh0) :
    (loop N e (onReceive (onReceive ch (some a)) (some b)) w fresh).2.calls
      = w.calls ++ [(b, v)] :=
  loop_delivers hN e (onReceive (onReceive ch (some a)) (some b)) w fresh bus b hb rfl v hv
    behind fresh0 hrx

/-- For every payload size and every input: after `onReceive(a)` and `onReceive(b)` one `loop`
call either invokes nothing or invokes `b`, once, with the payload it decoded; no invocation
of the replaced callback `a` is ever added. -/
theorem onReceive_last_wins (N : Nat) (e : Endian) (ch : Channel) (w : World) (fresh : Mem)
    (a b : Nat) :
    (loop N e (onReceive (onReceive ch (some a)) (some b)) w fresh).2.calls = w.calls ∨
    (loop N e (onReceive (onReceive ch (some a)) (some b)) w fresh).2.calls
      = w.calls ++ [(b, bufferToData N (drain (w.buses Wire).rx 0 fresh))] := by
  rw [loop_calls]
  have hcb : (onReceive (onReceive ch (some a)) (some b))._receiveCallback = some b := rfl
  rw [hcb]
  cases (onReceive (onReceive ch (some a)) (some b))._wire with
  | none => exact Or.inl rfl
  | some bus =>
    simp only []
    split
    · exact Or.inr rfl
    · exact Or.inl rfl

/-- Registration touches one slot: `onReceive` changes nothing but `_receiveCallback`, and
`onRequest` nothing but `_requestCallback`. -/
theorem registration_frame (ch : Channel) (cb : Option Nat) :
    (onReceive ch cb)._receiveCallback = cb ∧
    (onReceive ch cb)._requestCallback = ch._requestCallback ∧
    (onReceive ch cb)._wire = ch._wire ∧
    (onReceive ch cb)._address = ch._address ∧
    (onReceive ch cb)._buffer = ch._buffer ∧
    (onRequest ch cb)._requestCallback = cb ∧
    (onRequest ch cb)._receiveCallback = ch._receiveCallback ∧
    (onRequest ch cb)._wire = ch._wire ∧
    (onRequest ch cb)._address = ch._address ∧
    (onRequest ch cb)._buffer = ch._buffer :=
  ⟨rfl, rfl, rfl, rfl, rfl, rfl, rfl, rfl, rfl, rfl⟩

/-- C14 (failing input): on a channel bound to `Wire` with a 254-byte payload type, after
`onReceive(1)` followed by `onReceive(2)`, the valid 257-byte Data frame of the payload
`00 ... 00 01` drained by `loop()` invokes callback `2` not once but never: the 8-bit
`bufferIndex` wraps and the last frame byte replaces the tag. -/
theorem replaced_callback_not_invoked :
    (onReceive (onReceive (boundChannel 0 none) (some 1)) (some 2))._receiveCallback = some 2 ∧
    (loop 254 .little (onReceive (onReceive (boundChannel 0 none) (some 1)) (some 2))
      (sampleWorld (serialize 254 .little (List.replicate 253 0 ++ [1]) zeroMem zeroMem) [])
      zeroMem).2.calls = [] := by
  refine ⟨rfl, ?_⟩
  rw [serialize_254]
  exact loop_wrap_254 _ _ _ rfl

/-! ## Buffer bounds -/

theorem mem_memcpyWrites (dOff n i : Nat) : i ∈ memcpyWrites dOff n ↔ dOff ≤ i ∧ i < dOff + n := by
  unfold memcpyWrites
  simp only [List.mem_map, List.mem_range]
  constructor
  · rintro ⟨j, hj, rfl⟩
    omega
  · intro h
    exact ⟨i - dOff, by omega, by omega⟩

/-- The footprint `memcpyWrites` is exact: `memcpy` leaves every other destination offset
alone and stores a source byte at each listed offset. -/
theorem memcpy_footprint (dst : Mem) (dOff : Nat) (src : Mem) (sOff n i : Nat) :
    (i ∉ memcpyWrites dOff n → memcpy dst dOff src sOff n i = dst i) ∧
    (i ∈ memcpyWrites dOff n → memcpy dst dOff src sOff n i = src (sOff + (i - dOff))) := by
  rw [mem_memcpyWrites]
  unfold memcpy
  constructor
  · intro h
    rw [if_neg h]
  · intro h
    rw [if_pos h]

/-- For every payload size the copy in `dataToBuffer` stores to offset `packetSize`, the first
offset behind the allocation, and reads the three offsets behind the payload object. -/
theorem dataToBuffer_overrun {N : Nat} (hN : N + 3 < 2 ^ 16) :
    packetSize N ∈ dataToBufferWrites N ∧ ¬ packetSize N < dataToBufferAlloc N ∧
    (dataToBufferWrites N).length = N + 3 ∧
    N ∈ dataToBufferReads N ∧ N + 1 ∈ dataToBufferReads N ∧ N + 2 ∈ dataToBufferReads N := by
  unfold dataToBufferWrites dataToBufferAlloc dataToBufferReads
  rw [mem_memcpyWrites, packetSize_eq hN, TYPE_SIZE]
  unfold memcpyReads memcpyWrites
  simp only [List.length_map, List.length_range, List.mem_map, List.mem_range]
  refine ⟨by omega, by omega, trivial, ⟨N, by omega, by omega⟩, ⟨N + 1, by omega, by omega⟩,
    ⟨N + 2, by omega, by omega⟩⟩

/-- C15 (failing input): for the 4-byte payload `2A 00 00 00` followed in memory by bytes
`AA`, `dataToBuffer` allocates 7 bytes but copies 7 bytes, not 4: it reads offsets 4, 5 and 6
behind the payload and writes buffer offsets 1 to 7; offset 7 lies outside the allocation and
receives the byte `AA` found behind the payload. -/
theorem dataToBuffer_leaves_buffer :
    dataToBufferAlloc 4 = 1 + 4 + 2 ∧
    (dataToBufferWrites 4).length = 7 ∧
    dataToBufferReads 4 = [0, 1, 2, 3, 4, 5, 6] ∧
    dataToBufferWrites 4 = [1, 2, 3, 4, 5, 6, 7] ∧
    ¬ (∀ i ∈ dataToBufferWrites 4, i < 1 + 4 + 2) ∧
    zeroMem 7 = 0 ∧
    dataToBuffer 4 (objectMem [0x2A, 0, 0, 0] (fun _ => 0xAA)) zeroMem 7 = 0xAA := by
  refine ⟨by decide, by decide, by decide, by decide, by decide, rfl, by decide⟩

theorem drainWrites_length (n idx : Nat) : (drainWrites n idx).length = n := by
  induction n generalizing idx with
  | zero => rfl
  | succ n ih => simp [drainWrites, ih]

/-- While the 8-bit index does not wrap the drain loop stores to consecutive offsets. -/
theorem drainWrites_eq (n idx : Nat) (h : idx + n ≤ 2 ^ 8) :
    drainWrites n idx = (List.range n).map (fun i => idx + i) := by
  induction n generalizing idx with
  | zero => rfl
  | succ n ih =>
    rw [drainWrites, List.range_succ_eq_map, List.map_cons, List.map_map]
    cases n with
    | zero => rfl
    | succ m =>
      have hm : (idx + 1) % 2 ^ 8 = idx + 1 := Nat.mod_eq_of_lt (by omega)
      rw [hm, ih (idx + 1) (by omega)]
      congr 1
      apply List.map_congr_left
      intro i _
      simp only [Function.comp]
      omega

/-- Input longer than the frame: for every input of at most 256 bytes that is longer than the
frame, the drain loop stores to offset `packetSize`, which lies behind the buffer. -/
theorem drain_overrun (N m : Nat) (hm : packetSize N < m) (hm2 : m ≤ 2 ^ 8) :
    packetSize N ∈ drainWrites m 0 := by
  rw [drainWrites_eq m 0 (by omega)]
  simp only [List.mem_map, List.mem_range]
  exact ⟨packetSize N, hm, by omega⟩

/-- One `loop` call adds at most one callback invocation. -/
theorem loop_at_most_one (N : Nat) (e : Endian) (ch : Channel) (w : World) (fresh : Mem) :
    (loop N e ch w fresh).2.calls = w.calls ∨
    ∃ c, (loop N e ch w fresh).2.calls = w.calls ++ [c] := by
  rw [loop_calls]
  cases ch._wire with
  | none => exact Or.inl rfl
  | some b =>
    cases ch._receiveCallback with
    | none => exact Or.inl rfl
    | some cb =>
      simp only []
      split
      · exact Or.inr ⟨_, rfl⟩
      · exact Or.inl rfl

/-- C16 (failing input): with a 4-byte payload type (buffer of 7 bytes) and two frames of 42
back to back on `Wire` (14 bytes), the drain loop of `loop()` stores to offsets 0 to 13;
offsets 7 to 13 lie behind the buffer, and offset 7 of memory that held `FF` then holds the
tag `00` of the second frame.  Only the first frame is dispatched. -/
theorem over_long_input_leaves_buffer :
    packetSize 4 = 7 ∧
    drainWrites 14 0 = [0, 1, 2, 3, 4, 5, 6, 7, 8, 9, 10, 11, 12, 13] ∧
    ¬ (∀ i ∈ drainWrites 14 0, i < packetSize 4) ∧
    ffMem 7 = 0xFF ∧
    drain ([0, 0x2A, 0, 0, 0, 0xE5, 0x5F] ++ [0, 0x2A, 0, 0, 0, 0xE5, 0x5F]) 0 ffMem 7 = 0 ∧
    (loop 4 .little (boundChannel 0 (some 7))
      (sampleWorld ([0, 0x2A, 0, 0, 0, 0xE5, 0x5F] ++ [0, 0x2A, 0, 0, 0, 0xE5, 0x5F]) [])
      ffMem).1._buffer 13 = 0x5F ∧
    (loop 4 .little (boundChannel 0 (some 7))
      (sampleWorld ([0, 0x2A, 0, 0, 0, 0xE5, 0x5F] ++ [0, 0x2A, 0, 0, 0, 0xE5, 0x5F]) [])
      ffMem).2.calls = [(7, [0x2A, 0, 0, 0])] := by
  refine ⟨by decide, by decide, by decide, rfl, by decide, by decide, by decide⟩

/-! ## Polling: state, bus and index width -/

/-- The only data member that `receive` looks at is the callback slot. -/
theorem receive_congr (N : Nat) (e : Endian) (ch ch2 : Channel) (w : World) (buffer : Mem)
    (h : ch._receiveCallback = ch2._receiveCallback) :
    receive N e ch w buffer = receive N e ch2 w buffer := by
  unfold receive
  rw [h]

/-- What one `loop` call does to the outside world does not depend on what `_buffer` held
before the call. -/
theorem loop_ignores_buffer (N : Nat) (e : Endian) (ch : Channel) (w : World) (fresh : Mem)
    (old : Mem) :
    (loop N e { ch with _buffer := old } w fresh).2 = (loop N e ch w fresh).2 := by
  by_cases hrx : (w.buses Wire).rx = []
  · rw [loop_idle N e _ w fresh hrx, loop_idle N e ch w fresh hrx]
  · rcases Option.eq_none_or_eq_some ch._wire with hw | ⟨b, hw⟩
    · have h1 : loop N e ch w fresh = (ch, w) := by
        unfold loop
        rw [hw]
      have h2 : loop N e { ch with _buffer := old } w fresh = ({ ch with _buffer := old }, w) := by
        unfold loop
        simp [hw]
      rw [h1, h2]
    · rw [loop_available N e ch w fresh b hw hrx,
        loop_available N e { ch with _buffer := old } w fresh b hw hrx]

/-- When the bytes available on `Wire` fill the whole buffer (exactly `packetSize` bytes, at
most 256), the callback invocation made by `loop` is determined by those bytes and the
callback slot: it does not depend on the contents of the new buffer. -/
theorem loop_full_input_determined {N : Nat} (hN : N + 3 ≤ 2 ^ 8) (e : Endian) (ch : Channel)
    (w : World) (fresh fresh2 : Mem) (hlen : (w.buses Wire).rx.length = packetSize N) :
    (loop N e ch w fresh).2.calls = (loop N e ch w fresh2).2.calls := by
  have hN2 : N + 3 < 2 ^ 16 := by omega
  rw [packetSize_eq hN2] at hlen
  have hread : readBytes (drain (w.buses Wire).rx 0 fresh) 0 (N + 3)
      = readBytes (drain (w.buses Wire).rx 0 fresh2) 0 (N + 3) := by
    have h1 := readBytes_drain (w.buses Wire).rx fresh (by omega)
    have h2 := readBytes_drain (w.buses Wire).rx fresh2 (by omega)
    rw [hlen] at h1 h2
    rw [h1, h2]
  obtain ⟨h0, h1, h2⟩ := frame_congr hN2 e _ _ hread
  rw [loop_calls, loop_calls, h0, h1, h2]

/-- C17 (failing input): two `loop()` calls on the same bound channel with the same callback
and the same single available byte `00` (a sequence shorter than the 7-byte frame) differ in
their callback invocations: when the new buffer holds zeros the callback is invoked with
`00 00 00 00`, when it holds `FF` bytes it is not invoked.  The outcome is decided by memory
that the call never filled. -/
theorem polling_depends_on_stale_memory :
    ([0] : List Byte).length ≤ packetSize 4 ∧
    (loop 4 .little (boundChannel 0 (some 7)) (sampleWorld [0] []) zeroMem).2.calls
      = [(7, [0, 0, 0, 0])] ∧
    (loop 4 .little (boundChannel 0 (some 7)) (sampleWorld [0] []) ffMem).2.calls = [] := by
  refine ⟨by decide, by decide, by decide⟩

/-- Bytes waiting on a bus other than the global `Wire` have no influence on `loop`. -/
theorem loop_other_bus (N : Nat) (e : Endian) (ch : Channel) (w : World) (fresh : Mem)
    (b : Nat) (hb : b ≠ Wire) (bus : TwoWire) :
    (loop N e ch { w with buses := Function.update w.buses b bus } fresh).2.calls
      = (loop N e ch w fresh).2.calls := by
  rw [loop_calls, loop_calls]
  simp only [Function.update_noteq (Ne.symm hb)]

/-- C18 (failing input): a channel bound by `begin` to bus `1` with callback `7` registered.
A valid frame of 42 available on bus `1` is not delivered and stays unread, because `loop()`
asks the global `Wire` (bus `0`); and a frame available on the global `Wire`, to which the
channel was never bound, is read and delivered. -/
theorem loop_polls_global_wire :
    (onReceive (begin false (construct none none 0 zeroMem) (sampleWorld [] []) 1).1
      (some 7))._wire = some 1 ∧
    (loop 4 .little
      (onReceive (begin false (construct none none 0 zeroMem) (sampleWorld [] []) 1).1 (some 7))
      (sampleWorld [] [0, 0x2A, 0, 0, 0, 0xE5, 0x5F]) zeroMem).2.calls = [] ∧
    ((loop 4 .little
      (onReceive (begin false (construct none none 0 zeroMem) (sampleWorld [] []) 1).1 (some 7))
      (sampleWorld [] [0, 0x2A, 0, 0, 0, 0xE5, 0x5F]) zeroMem).2.buses 1).rx
        = [0, 0x2A, 0, 0, 0, 0xE5, 0x5F] ∧
    (loop 4 .little
      (onReceive (begin false (construct none none 0 zeroMem) (sampleWorld [] []) 1).1 (some 7))
      (sampleWorld [0, 0x2A, 0, 0, 0, 0xE5, 0x5F] []) zeroMem).2.calls
        = [(7, [0x2A, 0, 0, 0])] ∧
    ((loop 4 .little
      (onReceive (begin false (construct none none 0 zeroMem) (sampleWorld [] []) 1).1 (some 7))
      (sampleWorld [0, 0x2A, 0, 0, 0, 0xE5, 0x5F] []) zeroMem).2.buses Wire).rx = [] := by
  refine ⟨rfl, by decide, by decide, by decide, by decide⟩

theorem drainWrites_lt (n idx : Nat) (h : idx < 2 ^ 8) : ∀ i ∈ drainWrites n idx, i < 2 ^ 8 := by
  induction n generalizing idx with
  | zero =>
    intro i hi
    simp [drainWrites] at hi
  | succ n ih =>
    intro i hi
    simp only [drainWrites, List.mem_cons] at hi
    rcases hi with rfl | hi
    · exact h
    · exact ih _ (Nat.mod_lt _ (by norm_num)) i hi

/-- C19 (failing input): payload size 254, so `1 + 254 + 2 = 257` fits 16 bits; the input is
256 bytes `00` followed by `01`.  After the drain loop index `0` holds `01`, which is input
byte 256 and not input byte 0, and index 256 still holds the old content `FF` of the buffer
instead of input byte 256: the 8-bit `bufferIndex` wrapped to `0`. -/
theorem drain_wraps_at_256 :
    1 + 254 + 2 < 2 ^ 16 ∧
    (List.replicate 256 (0 : Byte) ++ [1]).length = 1 + 254 + 2 ∧
    (List.replicate 256 (0 : Byte) ++ [1]).getD 0 7 = 0 ∧
    (List.replicate 256 (0 : Byte) ++ [1]).getD 256 7 = 1 ∧
    drain (List.replicate 256 (0 : Byte) ++ [1]) 0 ffMem 0 = 1 ∧
    drain (List.replicate 256 (0 : Byte) ++ [1]) 0 ffMem 256 = 0xFF := by
  refine ⟨by norm_num, by simp, by decide, ?_, ?_, ?_⟩
  · rw [List.getD_eq_getElem?_getD, List.getElem?_append_right (by simp)]
    simp
  · exact drain_wrap _ _ _ (by simp)
  · rw [drain_untouched]
    · rfl
    · intro hmem
      have := drainWrites_lt _ 0 (by norm_num) 256 hmem
      omega

end SafeTransfer
